import Mathlib

/-!
# Goal-to-shopper affinity pipeline: a shallow embedding

This file embeds the computational core of the goal/shopper affinity
repository: co-occurrence aggregation over orders, lift estimation,
P5/P95 percentile normalization, CoAffinity matrix composition,
customer purchase-history summarization, seed weights, the final
affinity transform, and the batch orchestrator.

Modelling conventions:
* TypeScript `number` values living in the matrix pipeline (counts,
  lifts, percentiles, normalized values) are modelled as `ℚ`; the
  customer-scoring side uses `ℝ` because it involves `log2` and `exp`.
* `Date` values are modelled as integers (days since an epoch), so
  `setDate(getDate() - activityDays)` becomes integer subtraction.
* A JS `Map` is modelled as an association list in insertion order
  (`mapGet`/`mapSet`/`mapHas`); a JS `Set` built from a list keeps the
  first occurrence of each element (`jsSetList`).
* A JS 2-dimensional array read `m[i][j]` is modelled by `entry m i j`,
  which is `getD`-access defaulting to `0` out of range; the imperative
  `Array.from({length, n}, ...)` matrix builders become `List.range`
  maps, and in-place increments become functional updates (`bump`) on a
  `ℕ → ℕ → ℚ` table that is materialized at the end.
-/

namespace GoalAffinity

/-- JS `Map.get`: the value stored at the first (and only) entry with this key. -/
def mapGet {β : Type} (m : List (String × β)) (k : String) : Option β :=
  (m.find? (fun e => e.1 = k)).map (·.2)

/-- JS `Map.has`. -/
def mapHas {β : Type} (m : List (String × β)) (k : String) : Bool :=
  (m.find? (fun e => e.1 = k)).isSome

/-- JS `Map.set`: overwrite in place if the key is present, else append. -/
def mapSet {β : Type} (m : List (String × β)) (k : String) (v : β) :
    List (String × β) :=
  if (m.find? (fun e => e.1 = k)).isSome then
    m.map (fun e => if e.1 = k then (k, v) else e)
  else
    m ++ [(k, v)]

/-- JS `[...new Set(l)]`: deduplicate keeping the first occurrence of each
element, preserving order. -/
def jsSetList : List String → List String
  | [] => []
  | x :: xs => x :: (jsSetList xs).filter (fun y => y ≠ x)

/-- Read access `m[i][j]` on a nested array, defaulting to 0 out of range. -/
def entry (m : List (List ℚ)) (i j : ℕ) : ℚ :=
  (m.getD i []).getD j 0

/-! ## Data model (types/index.ts) -/

/-- Category reference record. -/
structure Category where
  id : String
  name : String
  popularity : ℚ
deriving DecidableEq

/-- One line of an order. -/
structure OrderItem where
  categoryId : String
  quantity : ℚ
  price : ℚ
deriving DecidableEq

/-- A customer order; `createdAt` is a date in days. -/
structure Order where
  id : String
  customerId : String
  items : List OrderItem
  createdAt : ℤ
  total : ℚ
deriving DecidableEq

/-- A customer record. -/
structure Customer where
  id : String
  name : String
  email : String
  createdAt : ℤ
deriving DecidableEq

/-- Output of the co-occurrence aggregation. -/
structure CoOrderMatrix where
  category : List String
  matrix : List (List ℚ)
  totalOrders : ℚ
  orderCounts : List (String × ℚ)
deriving DecidableEq

/-- Lift matrix. -/
structure LiftMatrix where
  category : List String
  matrix : List (List ℚ)
deriving DecidableEq

/-- A matrix normalized to [0,1] together with the bounds used. -/
structure NormalizedMatrix where
  categories : List String
  matrix : List (List ℚ)
  p5 : ℚ
  p95 : ℚ
deriving DecidableEq

/-- The blended CoAffinity matrix. -/
structure CoAffinityMatrix where
  categories : List String
  matrix : List (List ℚ)
deriving DecidableEq

/-- Per-category purchase facts for one customer. -/
structure CategoryPurchaseInfo where
  categoryId : String
  frequency : ℚ
  lastPurchaseDate : ℤ
  isLastOrder : Bool
deriving DecidableEq

/-- Summary of one customer's orders. -/
structure CustomerPurchaseHistory where
  customerId : String
  categories : List (String × CategoryPurchaseInfo)
  lastOrderDate : ℤ
  totalOrders : ℕ
deriving DecidableEq

/-- Seed weight derived from one purchased category. -/
structure SeedWeight where
  categoryId : String
  recencyBoost : ℝ
  frequencyBoost : ℝ
  seedWeight : ℝ

/-- A weighted signal for one seed category. -/
structure WeightedSignal where
  categoryId : String
  signal : ℝ

/-- The per-customer scoring output. -/
structure CustomerAffinityResult where
  customerId : String
  goalCategory : String
  seedWeights : List SeedWeight
  weightedSignals : List WeightedSignal
  maxWeightedSignal : ℝ
  affinity : ℝ

/-! ## math-utils.ts -/

/-- Source `log2`: 0 on non-positive input, otherwise the base-2 logarithm. -/
noncomputable def log2 (n : ℚ) : ℝ :=
  if n ≤ 0 then 0 else Real.logb 2 (n : ℝ)

/-- Source `clamp(value, min, max) = Math.max(min, Math.min(max, value))`. -/
def clamp (value mn mx : ℚ) : ℚ :=
  max mn (min mx value)

/-- Source `normalizeToRange`: rescale a clamped value into [0,1]. -/
def normalizeToRange (value mn mx : ℚ) : ℚ :=
  if mx = mn then 0
  else (clamp value mn mx - mn) / (mx - mn)

/-! ## percentile.ts -/

/-- Source `calculatePercentile`: sort ascending and linearly interpolate at
fractional rank `(p/100)*(n-1)`. -/
def calculatePercentile (values : List ℚ) (percentile : ℚ) : ℚ :=
  if values = [] then 0
  else
    let sorted := values.insertionSort (· ≤ ·)
    let index := percentile / 100 * ((values.length : ℚ) - 1)
    let lower := ⌊index⌋
    let upper := ⌈index⌉
    if lower = upper then sorted.getD lower.toNat 0
    else
      let fraction := index - (lower : ℚ)
      sorted.getD lower.toNat 0 +
        fraction * (sorted.getD upper.toNat 0 - sorted.getD lower.toNat 0)

/-- Interpolation kernel of `calculatePercentile` at fractional rank `t` over
an already-sorted sample; used to state and prove its monotonicity. -/
def interp (s : List ℚ) (t : ℚ) : ℚ :=
  if ⌊t⌋ = ⌈t⌉ then s.getD ⌊t⌋.toNat 0
  else
    s.getD ⌊t⌋.toNat 0 +
      (t - (⌊t⌋ : ℚ)) * (s.getD ⌈t⌉.toNat 0 - s.getD ⌊t⌋.toNat 0)

/-- Source `getP5P95Bounds`. -/
def getP5P95Bounds (values : List ℚ) : ℚ × ℚ :=
  (calculatePercentile values 5, calculatePercentile values 95)

/-- Source `normalizeP5P95`: P5/P95 clipping of one value. -/
def normalizeP5P95 (value p5 p95 : ℚ) : ℚ :=
  if p95 = p5 then 0
  else normalizeToRange (clamp value p5 p95) p5 p95

/-- Source `extractMatrixValues`: the strictly positive entries of the strict
upper triangle (row `i`, columns `j > i`), row by row. -/
def extractMatrixValues (matrix : List (List ℚ)) : List ℚ :=
  matrix.enum.flatMap fun p => (p.2.drop (p.1 + 1)).filter (fun v => 0 < v)

/-- Result record of `normalizeMatrixP5P95`. -/
structure NormalizeResult where
  normalizedMatrix : List (List ℚ)
  p5 : ℚ
  p95 : ℚ
deriving DecidableEq

/-- Source `normalizeMatrixP5P95`: normalize a whole matrix, defaulting the
bounds to the P5/P95 percentiles of `extractMatrixValues` when absent. -/
def normalizeMatrixP5P95 (matrix : List (List ℚ)) (p5opt p95opt : Option ℚ) :
    NormalizeResult :=
  let values := extractMatrixValues matrix
  let p5 := p5opt.getD (calculatePercentile values 5)
  let p95 := p95opt.getD (calculatePercentile values 95)
  let normalizedMatrix := matrix.enum.map fun p =>
    p.2.enum.map fun q =>
      if p.1 = q.1 then 0 else normalizeP5P95 q.2 p5 p95
  ⟨normalizedMatrix, p5, p95⟩

/-! ## co-orders-calculator.ts -/

/-- All ordered pairs `(l[i], l[j])` with `i < j`: the double loop
`for i; for j = i+1`. -/
def orderedPairs {α : Type} : List α → List (α × α)
  | [] => []
  | x :: xs => xs.map (fun y => (x, y)) ++ orderedPairs xs

/-- Functional update modelling `matrix[i][j]++` on a 2-dimensional table. -/
def bump (m : ℕ → ℕ → ℚ) (i j : ℕ) : ℕ → ℕ → ℚ :=
  fun a b => if a = i ∧ b = j then m a b + 1 else m a b

/-- Source `categoryIds.forEach((id, index) => categoryIndexMap.set(id, index))`. -/
def buildIndexList (ids : List String) : List (String × ℕ) :=
  ids.enum.foldl (fun m p => mapSet m p.2 p.1) []

/-- The co-occurrence increments contributed by one order: for every ordered
pair of distinct categories in the order, increment both `(i, j)` and
`(j, i)` when both categories are known to the index map. -/
def applyOrderPairs (indexMap : List (String × ℕ)) (orderCategories : List String)
    (m : ℕ → ℕ → ℚ) : ℕ → ℕ → ℚ :=
  (orderedPairs orderCategories).foldl
    (fun m p =>
      match mapGet indexMap p.1, mapGet indexMap p.2 with
      | some i, some j => bump (bump m i j) j i
      | _, _ => m)
    m

/-- The per-category order-count increments contributed by one order: each
category already present in the count map gains 1. -/
def applyOrderCounts (orderCategories : List String)
    (counts : List (String × ℚ)) : List (String × ℚ) :=
  orderCategories.foldl
    (fun counts cat =>
      match mapGet counts cat with
      | some c => mapSet counts cat (c + 1)
      | none => counts)
    counts

/-- Source `calculateCoOrderMatrix`: scan all orders, counting per-category
orders and symmetric pairwise co-occurrences over the fixed category index
space. -/
def calculateCoOrderMatrix (orders : List Order) (categories : List Category) :
    CoOrderMatrix :=
  let categoryIds := categories.map (·.id)
  let categoryIndexMap := buildIndexList categoryIds
  let n := categoryIds.length
  let countsInit := categoryIds.foldl (fun c cat => mapSet c cat 0) []
  let final := orders.foldl
    (fun st order =>
      let orderCategories := jsSetList (order.items.map (·.categoryId))
      (applyOrderPairs categoryIndexMap orderCategories st.1,
       applyOrderCounts orderCategories st.2))
    ((fun _ _ => (0 : ℚ)), countsInit)
  { category := categoryIds
    matrix := (List.range n).map fun i => (List.range n).map fun j => final.1 i j
    totalOrders := (orders.length : ℚ)
    orderCounts := final.2 }

/-- Source weight constant `LIFT_WEIGHT = 0.7`. -/
def LIFT_WEIGHT : ℚ := 0.7

/-- Source weight constant `CO_ORDERS_WEIGHT = 0.3`. -/
def CO_ORDERS_WEIGHT : ℚ := 0.3

/-- Source `calculateCoAffinityMatrix`: blend the two normalized matrices
positionally over `normalizedLift.categories.length`, forcing the diagonal
to 0; no validation of the inputs' category lists is performed. -/
def calculateCoAffinityMatrix (normalizedLift normalizedCoOrders : NormalizedMatrix) :
    CoAffinityMatrix :=
  let n := normalizedLift.categories.length
  let matrix := (List.range n).map fun i => (List.range n).map fun j =>
    if i = j then 0
    else LIFT_WEIGHT * entry normalizedLift.matrix i j +
      CO_ORDERS_WEIGHT * entry normalizedCoOrders.matrix i j
  ⟨normalizedLift.categories, matrix⟩

/-! ## lift-calculator.ts -/

/-- The lift value the source computes for the pair `(i, j)` with `i < j`:
read the co-order count at `[i][j]`, look up both order counts (absent or
falsy becomes 0), and return 0 on a zero count, else the lift ratio. -/
def liftPairValue (co : CoOrderMatrix) (i j : ℕ) : ℚ :=
  if (mapGet co.orderCounts (co.category.getD i "")).getD 0 = 0 ∨
      (mapGet co.orderCounts (co.category.getD j "")).getD 0 = 0 then 0
  else
    entry co.matrix i j * co.totalOrders /
      ((mapGet co.orderCounts (co.category.getD i "")).getD 0 *
        (mapGet co.orderCounts (co.category.getD j "")).getD 0)

/-- Source `calculateLiftMatrix`: for every `i < j` compute the lift once and
write it to both `[i][j]` and `[j][i]`; the diagonal keeps its initial 0. -/
def calculateLiftMatrix (coOrdersMatrix : CoOrderMatrix) : LiftMatrix :=
  let n := coOrdersMatrix.category.length
  { category := coOrdersMatrix.category
    matrix := (List.range n).map fun i => (List.range n).map fun j =>
      if i = j then 0
      else if i < j then liftPairValue coOrdersMatrix i j
      else liftPairValue coOrdersMatrix j i }

/-! ## normaliser.ts -/

/-- Source `normalizeLiftMatrix`. -/
def normalizeLiftMatrix (liftMatrix : LiftMatrix) (p5 p95 : Option ℚ) :
    NormalizedMatrix :=
  let r := normalizeMatrixP5P95 liftMatrix.matrix p5 p95
  ⟨liftMatrix.category, r.normalizedMatrix, r.p5, r.p95⟩

/-- Source `normalizeCoOrdersMatrix`. -/
def normalizeCoOrdersMatrix (coOrdersMatrix : CoOrderMatrix) (p5 p95 : Option ℚ) :
    NormalizedMatrix :=
  let r := normalizeMatrixP5P95 coOrdersMatrix.matrix p5 p95
  ⟨coOrdersMatrix.category, r.normalizedMatrix, r.p5, r.p95⟩

/-- Source `getLiftBounds`. -/
def getLiftBounds (liftMatrix : LiftMatrix) : ℚ × ℚ :=
  getP5P95Bounds (extractMatrixValues liftMatrix.matrix)

/-- Source `getCoOrdersBounds`. -/
def getCoOrdersBounds (coOrdersMatrix : CoOrderMatrix) : ℚ × ℚ :=
  getP5P95Bounds (extractMatrixValues coOrdersMatrix.matrix)

/-- The matrix-building steps of source `buildCoAffinityFromOrders`
(printing omitted): co-orders, lift, normalization with shared bounds,
then the blended CoAffinity matrix. -/
def buildCoAffinityFromOrders (orders : List Order) (categories : List Category) :
    CoOrderMatrix × LiftMatrix × NormalizedMatrix × NormalizedMatrix × CoAffinityMatrix :=
  let coOrdersMatrix := calculateCoOrderMatrix orders categories
  let liftMatrix := calculateLiftMatrix coOrdersMatrix
  let liftBounds := getLiftBounds liftMatrix
  let coOrdersBounds := getCoOrdersBounds coOrdersMatrix
  let normalizedLift := normalizeLiftMatrix liftMatrix (some liftBounds.1) (some liftBounds.2)
  let normalizedCoOrders :=
    normalizeCoOrdersMatrix coOrdersMatrix (some coOrdersBounds.1) (some coOrdersBounds.2)
  let coAffinityMatrix := calculateCoAffinityMatrix normalizedLift normalizedCoOrders
  (coOrdersMatrix, liftMatrix, normalizedLift, normalizedCoOrders, coAffinityMatrix)

/-! ## data-loader.ts (pure lookup helpers) -/

/-- Source `buildCategoryIndexMap`: category id to matrix index. -/
def buildCategoryIndexMap (categories : List String) : List (String × ℕ) :=
  buildIndexList categories

/-- Source `getCoAffinity`: matrix lookup through the index map, 0 when either
category is unknown. -/
def getCoAffinity (matrix : CoAffinityMatrix) (categoryIndexMap : List (String × ℕ))
    (cat1 cat2 : String) : ℚ :=
  match mapGet categoryIndexMap cat1, mapGet categoryIndexMap cat2 with
  | some idx1, some idx2 => entry matrix.matrix idx1 idx2
  | _, _ => 0

/-! ## seed-weight_calculator.ts -/

/-- Source constant. -/
def RECENCY_BOOST_LAST_ORDER : ℝ := 0.75

/-- Source constant. -/
def RECENCY_BOOST_OLDER : ℝ := 0.5

/-- Source constant. -/
def FREQUENCY_BOOST_CAP : ℝ := 1.6

/-- Source constant. -/
def FREQUENCY_BOOST_BASE : ℝ := 1.0

/-- Source constant. -/
def FREQUENCY_BOOST_MULTIPLIER : ℝ := 0.5

/-- The category-map update performed for one category of one order inside
`buildCustomerPurchaseHistory`: bump the frequency and the last purchase
date when present, otherwise insert a fresh record. -/
def historyStep (lastOrderCategories : List String) (orderCreatedAt : ℤ)
    (cats : List (String × CategoryPurchaseInfo)) (catId : String) :
    List (String × CategoryPurchaseInfo) :=
  match mapGet cats catId with
  | some existing =>
      mapSet cats catId
        { existing with
          frequency := existing.frequency + 1
          lastPurchaseDate :=
            if existing.lastPurchaseDate < orderCreatedAt then orderCreatedAt
            else existing.lastPurchaseDate }
  | none =>
      mapSet cats catId
        { categoryId := catId
          frequency := 1
          lastPurchaseDate := orderCreatedAt
          isLastOrder := lastOrderCategories.contains catId }

/-- Source `buildCustomerPurchaseHistory`: filter to the customer's orders,
sort descending by creation date, and fold the per-category facts; `none`
models the `null` returned for a customer with no orders. -/
def buildCustomerPurchaseHistory (customerId : String) (orders : List Order) :
    Option CustomerPurchaseHistory :=
  let customerOrders :=
    (orders.filter (fun o => o.customerId = customerId)).insertionSort
      (fun a b => b.createdAt ≤ a.createdAt)
  match customerOrders with
  | [] => none
  | lastOrder :: _ =>
      let lastOrderCategories := jsSetList (lastOrder.items.map (·.categoryId))
      let categories := customerOrders.foldl
        (fun cats order =>
          (jsSetList (order.items.map (·.categoryId))).foldl
            (historyStep lastOrderCategories order.createdAt) cats)
        []
      some
        { customerId := customerId
          categories := categories
          lastOrderDate := lastOrder.createdAt
          totalOrders := customerOrders.length }

/-- Source `calculateFrequencyBoost`. -/
noncomputable def calculateFrequencyBoost (frequency : ℚ) : ℝ :=
  if frequency ≤ 0 then FREQUENCY_BOOST_BASE
  else
    min (FREQUENCY_BOOST_BASE + FREQUENCY_BOOST_MULTIPLIER * log2 frequency)
      FREQUENCY_BOOST_CAP

/-- Source `calculateRecencyBoost`. -/
def calculateRecencyBoost (isLastOrder : Bool) : ℝ :=
  if isLastOrder then RECENCY_BOOST_LAST_ORDER else RECENCY_BOOST_OLDER

/-- Source `calculateSeedWeight`. -/
noncomputable def calculateSeedWeight (purchaseInfo : CategoryPurchaseInfo) :
    SeedWeight :=
  let recencyBoost := calculateRecencyBoost purchaseInfo.isLastOrder
  let frequencyBoost := calculateFrequencyBoost purchaseInfo.frequency
  ⟨purchaseInfo.categoryId, recencyBoost, frequencyBoost, recencyBoost * frequencyBoost⟩

/-- Source `calculateAllSeedWeights`: one seed weight per stored category, in
map iteration (insertion) order. -/
noncomputable def calculateAllSeedWeights (purchaseHistory : CustomerPurchaseHistory) :
    List SeedWeight :=
  purchaseHistory.categories.map fun e => calculateSeedWeight e.2

/-- Source `isCustomerEligible`: false when the goal category was ever
purchased; otherwise the last order date must be at or after
`referenceDate - activityDays`. -/
def isCustomerEligible (purchaseHistory : CustomerPurchaseHistory)
    (goalCategory : String) (activityDays : ℤ) (referenceDate : ℤ) : Bool :=
  if mapHas purchaseHistory.categories goalCategory then false
  else
    let cutoffDate := referenceDate - activityDays
    decide (cutoffDate ≤ purchaseHistory.lastOrderDate)

/-! ## affinity-calculator.ts -/

/-- Source `calculateWeightedSignals`: CoAffinity toward the goal times the
seed weight, one signal per seed category. -/
noncomputable def calculateWeightedSignals (seedWeights : List SeedWeight)
    (goalCategory : String) (coAffinityMatrix : CoAffinityMatrix)
    (categoryIndexMap : List (String × ℕ)) : List WeightedSignal :=
  seedWeights.map fun seedWeight =>
    ⟨seedWeight.categoryId,
      ((getCoAffinity coAffinityMatrix categoryIndexMap seedWeight.categoryId
        goalCategory : ℚ) : ℝ) * seedWeight.seedWeight⟩

/-- Source `calculateRawSignal`: 0 on an empty list, else
`Math.max(...signals)`. -/
def calculateRawSignal (weightedSignals : List WeightedSignal) : ℝ :=
  match weightedSignals.map (·.signal) with
  | [] => 0
  | x :: xs => xs.foldl max x

/-- Source `calculateFinalAffinity`: the saturating transform `1 - e^(-raw)`. -/
noncomputable def calculateFinalAffinity (rawSignal : ℝ) : ℝ :=
  1 - Real.exp (-rawSignal)

/-- Source `calculateCustomerAffinity`. -/
noncomputable def calculateCustomerAffinity (purchaseHistory : CustomerPurchaseHistory)
    (goalCategory : String) (coAffinityMatrix : CoAffinityMatrix)
    (categoryIndexMap : List (String × ℕ)) : CustomerAffinityResult :=
  let seedWeights := calculateAllSeedWeights purchaseHistory
  let weightedSignals :=
    calculateWeightedSignals seedWeights goalCategory coAffinityMatrix categoryIndexMap
  let maxWeightedSignal := calculateRawSignal weightedSignals
  let affinity := calculateFinalAffinity maxWeightedSignal
  ⟨purchaseHistory.customerId, goalCategory, seedWeights, weightedSignals,
    maxWeightedSignal, affinity⟩

/-- Source `createCategoryIndexMap`. -/
def createCategoryIndexMap (coAffinityMatrix : CoAffinityMatrix) :
    List (String × ℕ) :=
  buildCategoryIndexMap coAffinityMatrix.categories

/-! ## batch-processor.ts -/

/-- Accumulated output of the batch loop: scored results and skip records
`(customerId, reason)`. -/
structure ProcessOutput where
  results : List CustomerAffinityResult
  skipped : List (String × String)

/-- The body of the `for (const customer of customers)` loop in
`processAllCustomers`: skip with reason "No orders" when the customer has no
history, skip with the goal-purchase reason taking precedence over the
activity reason when ineligible, otherwise score and collect. -/
noncomputable def processCustomerStep (orders : List Order)
    (coAffinityMatrix : CoAffinityMatrix) (goalCategory : String)
    (activeDays : ℤ) (referenceDate : ℤ) (categoryIndexMap : List (String × ℕ))
    (acc : ProcessOutput) (customer : Customer) : ProcessOutput :=
  match buildCustomerPurchaseHistory customer.id orders with
  | none => { acc with skipped := acc.skipped ++ [(customer.id, "No orders")] }
  | some purchaseHistory =>
      if isCustomerEligible purchaseHistory goalCategory activeDays referenceDate then
        { acc with
          results := acc.results ++
            [calculateCustomerAffinity purchaseHistory goalCategory coAffinityMatrix
              categoryIndexMap] }
      else
        let reason :=
          if mapHas purchaseHistory.categories goalCategory then
            "Already purchased goal category"
          else "Not active in window"
        { acc with skipped := acc.skipped ++ [(customer.id, reason)] }

/-- The error message thrown by `processAllCustomers` for an unknown goal
category: it names the goal and joins the valid category list. -/
def goalNotFoundMessage (goalCategory : String) (categories : List String) : String :=
  "Goal category \"" ++ goalCategory ++ "\" not found. Available categories: " ++
    String.intercalate ", " categories

/-- Source `processAllCustomers`: validate the goal category (throwing, i.e.
`Except.error`, before any customer is touched), then fold the per-customer
step over the whole customer list. -/
noncomputable def processAllCustomers (customers : List Customer) (orders : List Order)
    (coAffinityMatrix : CoAffinityMatrix) (goalCategory : String)
    (activeDays : ℤ) (referenceDate : ℤ) : Except String ProcessOutput :=
  let categoryIndexMap := createCategoryIndexMap coAffinityMatrix
  if ¬ coAffinityMatrix.categories.contains goalCategory then
    .error (goalNotFoundMessage goalCategory coAffinityMatrix.categories)
  else
    .ok (customers.foldl
      (processCustomerStep orders coAffinityMatrix goalCategory activeDays
        referenceDate categoryIndexMap)
      ⟨[], []⟩)

/-! ## Statement vocabulary -/

/-- Entry-level symmetry of a nested-list matrix. -/
def SymmEntry (m : List (List ℚ)) : Prop :=
  ∀ i j, entry m i j = entry m j i

/-- Entry-level zero diagonal of a nested-list matrix. -/
def ZeroDiag (m : List (List ℚ)) : Prop :=
  ∀ i, entry m i i = 0

/-! ## Helper lemmas -/

theorem le_foldl_max (xs : List ℝ) (x : ℝ) : x ≤ xs.foldl max x := by
  induction xs generalizing x with
  | nil => exact le_refl x
  | cons y ys ih => exact le_trans (le_max_left x y) (ih (max x y))

theorem mem_le_foldl_max (xs : List ℝ) (x : ℝ) :
    ∀ y ∈ xs, y ≤ xs.foldl max x := by
  induction xs generalizing x with
  | nil => intro y hy; cases hy
  | cons z zs ih =>
      intro y hy
      rcases List.mem_cons.mp hy with h | h
      · subst h
        exact le_trans (le_max_right x y) (le_foldl_max zs (max x y))
      · exact ih (max x z) y h

theorem foldl_max_mem (xs : List ℝ) (x : ℝ) :
    xs.foldl max x = x ∨ xs.foldl max x ∈ xs := by
  induction xs generalizing x with
  | nil => exact Or.inl rfl
  | cons y ys ih =>
      rw [List.foldl_cons]
      rcases ih (max x y) with h | h
      · rcases max_choice x y with hm | hm
        · exact Or.inl (h.trans hm)
        · exact Or.inr (by rw [h, hm]; exact List.mem_cons_self y ys)
      · exact Or.inr (List.mem_cons_of_mem y h)

theorem logb_two_four : Real.logb 2 4 = 2 := by
  rw [show (4 : ℝ) = 2 ^ (2 : ℕ) by norm_num, Real.logb_pow,
    Real.logb_self_eq_one (by norm_num)]
  norm_num

theorem entry_range_map (n : ℕ) (g : ℕ → ℕ → ℚ) (i j : ℕ) :
    entry ((List.range n).map fun a => (List.range n).map fun b => g a b) i j =
      if i < n ∧ j < n then g i j else 0 := by
  unfold entry
  rw [List.getD_eq_getElem?_getD, List.getD_eq_getElem?_getD, List.getElem?_map]
  by_cases hi : i < n
  · rw [List.getElem?_range hi]
    simp only [Option.map_some', Option.getD_some]
    rw [List.getElem?_map]
    by_cases hj : j < n
    · rw [List.getElem?_range hj]
      simp [hi, hj]
    · rw [List.getElem?_eq_none (by simpa using hj)]
      simp [hi, hj]
  · rw [show (List.range n)[i]? = none from List.getElem?_eq_none (by simpa using hi)]
    simp [hi]

/-! ## Claim theorems -/

/-- C2: for normalized matrices over the same categories list of length `n`,
`calculateCoAffinityMatrix` blends every off-diagonal position as
`0.7 * lift + 0.3 * coOrders`, zeroes the diagonal, and carries over the
input categories list unchanged. -/
theorem c2_coaffinity_blend (nl nco : NormalizedMatrix)
    (_hcats : nl.categories = nco.categories) :
    ((calculateCoAffinityMatrix nl nco).categories = nl.categories) ∧
    (∀ i j, i < nl.categories.length → j < nl.categories.length → i ≠ j →
      entry (calculateCoAffinityMatrix nl nco).matrix i j =
        0.7 * entry nl.matrix i j + 0.3 * entry nco.matrix i j) ∧
    (∀ i, i < nl.categories.length →
      entry (calculateCoAffinityMatrix nl nco).matrix i i = 0) := by
  refine ⟨rfl, ?_, ?_⟩
  · intro i j hi hj hij
    show entry ((List.range _).map fun a => (List.range _).map fun b => _) i j = _
    rw [entry_range_map]
    simp [hi, hj, hij, LIFT_WEIGHT, CO_ORDERS_WEIGHT]
  · intro i hi
    show entry ((List.range _).map fun a => (List.range _).map fun b => _) i i = _
    rw [entry_range_map]
    simp [hi]

/-- C2 witness: the theorem applied to concrete 2-by-2 normalized matrices
over the shared categories list `["a", "b"]`, at the off-diagonal position
`(0, 1)` and the diagonal position `(0, 0)`. -/
theorem c2_coaffinity_blend_witness :
    ((⟨["a", "b"], [[0, 1], [1, 0]], 0, 1⟩ : NormalizedMatrix).categories =
      (⟨["a", "b"], [[0, 2], [2, 0]], 0, 1⟩ : NormalizedMatrix).categories) ∧
    ((0 : ℕ) < 2 ∧ (1 : ℕ) < 2 ∧ (0 : ℕ) ≠ 1) ∧
    entry (calculateCoAffinityMatrix ⟨["a", "b"], [[0, 1], [1, 0]], 0, 1⟩
        ⟨["a", "b"], [[0, 2], [2, 0]], 0, 1⟩).matrix 0 1 =
      0.7 * entry [[0, 1], [1, 0]] 0 1 + 0.3 * entry [[0, 2], [2, 0]] 0 1 ∧
    entry (calculateCoAffinityMatrix ⟨["a", "b"], [[0, 1], [1, 0]], 0, 1⟩
        ⟨["a", "b"], [[0, 2], [2, 0]], 0, 1⟩).matrix 0 0 = 0 :=
  ⟨rfl, ⟨by decide, by decide, by decide⟩,
    (c2_coaffinity_blend ⟨["a", "b"], [[0, 1], [1, 0]], 0, 1⟩
      ⟨["a", "b"], [[0, 2], [2, 0]], 0, 1⟩ rfl).2.1 0 1 (by decide) (by decide)
      (by decide),
    (c2_coaffinity_blend ⟨["a", "b"], [[0, 1], [1, 0]], 0, 1⟩
      ⟨["a", "b"], [[0, 2], [2, 0]], 0, 1⟩ rfl).2.2 0 (by decide)⟩

/-- C1 counterexample: two normalized matrices whose categories lists differ
(`["a", "b"]` versus `["b", "a"]`); `calculateCoAffinityMatrix` raises no
error — it returns a concrete CoAffinityMatrix, silently blending the
entries positionally. -/
theorem c1_counterexample :
    ((⟨["a", "b"], [[0, 1], [1, 0]], 0, 1⟩ : NormalizedMatrix).categories ≠
      (⟨["b", "a"], [[0, 0], [0, 0]], 0, 1⟩ : NormalizedMatrix).categories) ∧
    calculateCoAffinityMatrix ⟨["a", "b"], [[0, 1], [1, 0]], 0, 1⟩
        ⟨["b", "a"], [[0, 0], [0, 0]], 0, 1⟩ =
      ⟨["a", "b"], [[0, 0.7], [0.7, 0]]⟩ := by
  constructor
  · decide
  · simp only [calculateCoAffinityMatrix]
    norm_num [List.range_succ, entry, LIFT_WEIGHT, CO_ORDERS_WEIGHT,
      CoAffinityMatrix.mk.injEq]

/-- C1 as amended: `calculateCoAffinityMatrix` performs no category-ordering
validation; even when the two inputs' categories lists differ it returns a
CoAffinityMatrix, carrying `normalizedLift`'s categories and blending the
two matrices positionally at every index pair. -/
theorem c1_no_validation (nl nco : NormalizedMatrix)
    (_hcats : nl.categories ≠ nco.categories) :
    ((calculateCoAffinityMatrix nl nco).categories = nl.categories) ∧
    (∀ i j, i < nl.categories.length → j < nl.categories.length →
      entry (calculateCoAffinityMatrix nl nco).matrix i j =
        if i = j then 0
        else 0.7 * entry nl.matrix i j + 0.3 * entry nco.matrix i j) := by
  refine ⟨rfl, ?_⟩
  intro i j hi hj
  show entry ((List.range _).map fun a => (List.range _).map fun b => _) i j = _
  rw [entry_range_map]
  simp only [hi, hj, and_self, if_true]
  rcases eq_or_ne i j with h | h
  · simp [h]
  · simp [h, LIFT_WEIGHT, CO_ORDERS_WEIGHT]

/-- C1 amended-claim witness: the amended theorem applied at the mismatched
concrete matrices of the counterexample, at position `(0, 1)`. -/
theorem c1_no_validation_witness :
    ((⟨["a", "b"], [[0, 1], [1, 0]], 0, 1⟩ : NormalizedMatrix).categories ≠
      (⟨["b", "a"], [[0, 0], [0, 0]], 0, 1⟩ : NormalizedMatrix).categories) ∧
    ((0 : ℕ) < 2 ∧ (1 : ℕ) < 2) ∧
    entry (calculateCoAffinityMatrix ⟨["a", "b"], [[0, 1], [1, 0]], 0, 1⟩
        ⟨["b", "a"], [[0, 0], [0, 0]], 0, 1⟩).matrix 0 1 =
      (if (0 : ℕ) = 1 then 0
        else 0.7 * entry [[0, 1], [1, 0]] 0 1 + 0.3 * entry [[0, 0], [0, 0]] 0 1) :=
  ⟨by decide, ⟨by decide, by decide⟩,
    (c1_no_validation ⟨["a", "b"], [[0, 1], [1, 0]], 0, 1⟩
      ⟨["b", "a"], [[0, 0], [0, 0]], 0, 1⟩ (by decide)).2 0 1 (by decide) (by decide)⟩

/-- C4: for a (symmetric) CoOrderMatrix, every off-diagonal lift entry is 0
when either category's order count is 0 or absent, and otherwise equals
`coOccurrence[i][j] * totalOrders / (orderCount[i] * orderCount[j])`;
the spec's worked example (co-occurrence 3 of 10 orders, counts 5 and 4)
yields 1.5. -/
theorem c4_lift_formula (co : CoOrderMatrix) (hsym : SymmEntry co.matrix) :
    (∀ i j, i < co.category.length → j < co.category.length → i ≠ j →
      entry (calculateLiftMatrix co).matrix i j =
        if (mapGet co.orderCounts (co.category.getD i "")).getD 0 = 0 ∨
            (mapGet co.orderCounts (co.category.getD j "")).getD 0 = 0 then 0
        else
          entry co.matrix i j * co.totalOrders /
            ((mapGet co.orderCounts (co.category.getD i "")).getD 0 *
              (mapGet co.orderCounts (co.category.getD j "")).getD 0)) ∧
    entry (calculateLiftMatrix
        ⟨["A", "B"], [[0, 3], [3, 0]], 10, [("A", 5), ("B", 4)]⟩).matrix 0 1 =
      1.5 := by
  constructor
  · intro i j hi hj hij
    show entry ((List.range _).map fun a => (List.range _).map fun b => _) i j = _
    rw [entry_range_map]
    rw [if_pos ⟨hi, hj⟩, if_neg hij]
    rcases lt_or_gt_of_ne hij with hlt | hgt
    · rw [if_pos hlt]
      rfl
    · rw [if_neg (not_lt.mpr (le_of_lt hgt))]
      unfold liftPairValue
      rw [hsym j i]
      exact if_congr or_comm rfl (by
        rw [mul_comm ((mapGet co.orderCounts (co.category.getD j "")).getD 0)
          ((mapGet co.orderCounts (co.category.getD i "")).getD 0)])
  · have h1 : entry (calculateLiftMatrix
        ⟨["A", "B"], [[0, 3], [3, 0]], 10, [("A", 5), ("B", 4)]⟩).matrix 0 1 =
        liftPairValue ⟨["A", "B"], [[0, 3], [3, 0]], 10, [("A", 5), ("B", 4)]⟩ 0 1 := by
      show entry ((List.range _).map fun a => (List.range _).map fun b => _) 0 1 = _
      rw [entry_range_map]
      norm_num
    rw [h1]
    have e1 : (mapGet ([("A", 5), ("B", 4)] : List (String × ℚ))
        ((["A", "B"] : List String).getD 0 "")).getD 0 = 5 := rfl
    have e2 : (mapGet ([("A", 5), ("B", 4)] : List (String × ℚ))
        ((["A", "B"] : List String).getD 1 "")).getD 0 = 4 := rfl
    have e3 : entry ([[0, 3], [3, 0]] : List (List ℚ)) 0 1 = 3 := rfl
    unfold liftPairValue
    rw [e1, e2, e3]
    norm_num

/-- C4 witness: the formula conjunct applied at the spec's worked example,
with the symmetry invariant and the index hypotheses discharged. -/
theorem c4_lift_formula_witness :
    SymmEntry ([[0, 3], [3, 0]] : List (List ℚ)) ∧
    ((0 : ℕ) < 2 ∧ (1 : ℕ) < 2 ∧ (0 : ℕ) ≠ 1) ∧
    entry (calculateLiftMatrix
        ⟨["A", "B"], [[0, 3], [3, 0]], 10, [("A", 5), ("B", 4)]⟩).matrix 0 1 =
      (if (mapGet ([("A", 5), ("B", 4)] : List (String × ℚ))
            ((["A", "B"] : List String).getD 0 "")).getD 0 = 0 ∨
          (mapGet ([("A", 5), ("B", 4)] : List (String × ℚ))
            ((["A", "B"] : List String).getD 1 "")).getD 0 = 0 then 0
        else
          entry [[0, 3], [3, 0]] 0 1 * 10 /
            ((mapGet ([("A", 5), ("B", 4)] : List (String × ℚ))
              ((["A", "B"] : List String).getD 0 "")).getD 0 *
              (mapGet ([("A", 5), ("B", 4)] : List (String × ℚ))
                ((["A", "B"] : List String).getD 1 "")).getD 0)) := by
  have hsym : SymmEntry ([[0, 3], [3, 0]] : List (List ℚ)) := by
    intro i j
    rcases i with _ | _ | i <;> rcases j with _ | _ | j <;> rfl
  exact ⟨hsym, ⟨by decide, by decide, by decide⟩,
    (c4_lift_formula ⟨["A", "B"], [[0, 3], [3, 0]], 10, [("A", 5), ("B", 4)]⟩
      hsym).1 0 1 (by decide) (by decide) (by decide)⟩

/-- C5: `calculateSeedWeight` returns recencyBoost 0.75 when the category is
in the last order and 0.50 otherwise; frequencyBoost is
`min(1.6, 1 + 0.5*log2(frequency))` for positive frequency and 1.0 for
non-positive frequency; seedWeight is their product; in particular a
category purchased in 4 orders that is in the last order gets
frequencyBoost 1.6 and seedWeight 1.2. -/
theorem c5_seed_weight (p : CategoryPurchaseInfo) :
    ((calculateSeedWeight p).recencyBoost =
      if p.isLastOrder then 0.75 else 0.5) ∧
    (0 < p.frequency →
      (calculateSeedWeight p).frequencyBoost =
        min 1.6 (1.0 + 0.5 * Real.logb 2 (p.frequency : ℝ))) ∧
    (p.frequency ≤ 0 → (calculateSeedWeight p).frequencyBoost = 1.0) ∧
    ((calculateSeedWeight p).seedWeight =
      (calculateSeedWeight p).recencyBoost * (calculateSeedWeight p).frequencyBoost) ∧
    ((calculateSeedWeight ⟨"x", 4, 0, true⟩).frequencyBoost = 1.6 ∧
      (calculateSeedWeight ⟨"x", 4, 0, true⟩).seedWeight = 1.2) := by
  have h4 : ¬ ((4 : ℚ) ≤ 0) := by norm_num
  have hfb : (calculateSeedWeight ⟨"x", 4, 0, true⟩).frequencyBoost = 1.6 := by
    simp only [calculateSeedWeight, calculateFrequencyBoost, log2,
      FREQUENCY_BOOST_BASE, FREQUENCY_BOOST_MULTIPLIER, FREQUENCY_BOOST_CAP]
    rw [if_neg h4, if_neg h4, show (((4 : ℚ) : ℝ)) = 4 by norm_num, logb_two_four]
    norm_num [min_def]
  refine ⟨rfl, ?_, ?_, rfl, hfb, ?_⟩
  · intro hf
    have h1 : ¬ p.frequency ≤ 0 := not_le.mpr hf
    simp only [calculateSeedWeight, calculateFrequencyBoost, log2,
      FREQUENCY_BOOST_BASE, FREQUENCY_BOOST_MULTIPLIER, FREQUENCY_BOOST_CAP]
    rw [if_neg h1, if_neg h1]
    exact min_comm _ _
  · intro hf
    simp only [calculateSeedWeight, calculateFrequencyBoost, FREQUENCY_BOOST_BASE]
    rw [if_pos hf]
  · have hr : (calculateSeedWeight ⟨"x", 4, 0, true⟩).recencyBoost = 0.75 := rfl
    have hsw : (calculateSeedWeight ⟨"x", 4, 0, true⟩).seedWeight =
        (calculateSeedWeight ⟨"x", 4, 0, true⟩).recencyBoost *
          (calculateSeedWeight ⟨"x", 4, 0, true⟩).frequencyBoost := rfl
    rw [hsw, hr, hfb]
    norm_num

/-- C5 witness: the theorem instantiated at the spec's example, with the
positivity hypothesis discharged at frequency 4. -/
theorem c5_seed_weight_witness :
    (0 < (4 : ℚ)) ∧
    (calculateSeedWeight ⟨"x", 4, 0, true⟩).frequencyBoost =
      min 1.6 (1.0 + 0.5 * Real.logb 2 (((4 : ℚ) : ℝ))) :=
  ⟨by norm_num, (c5_seed_weight ⟨"x", 4, 0, true⟩).2.1 (by norm_num)⟩

/-- C6: the raw signal is the maximum of the weighted signals (0 when the
list is empty), and the final affinity `1 - exp(-raw)` maps 0 to 0, is
monotone non-decreasing, and sends every non-negative raw signal into
`[0, 1)`. -/
theorem c6_raw_signal_and_affinity :
    (calculateRawSignal [] = 0) ∧
    (∀ l : List WeightedSignal, l ≠ [] →
      (∀ s ∈ l, s.signal ≤ calculateRawSignal l) ∧
      calculateRawSignal l ∈ l.map (·.signal)) ∧
    (calculateFinalAffinity 0 = 0) ∧
    (∀ r s : ℝ, r ≤ s → calculateFinalAffinity r ≤ calculateFinalAffinity s) ∧
    (∀ r : ℝ, 0 ≤ r →
      0 ≤ calculateFinalAffinity r ∧ calculateFinalAffinity r < 1) := by
  refine ⟨rfl, ?_, ?_, ?_, ?_⟩
  · intro l hl
    match l with
    | [] => exact absurd rfl hl
    | w :: ws =>
        constructor
        · intro s hs
          rcases List.mem_cons.mp hs with h | h
          · subst h
            exact le_foldl_max (ws.map (·.signal)) s.signal
          · exact mem_le_foldl_max (ws.map (·.signal)) w.signal s.signal
              (List.mem_map_of_mem (·.signal) h)
        · show (ws.map (·.signal)).foldl max w.signal ∈ _
          rcases foldl_max_mem (ws.map (·.signal)) w.signal with h | h
          · rw [List.map_cons, h]; exact List.mem_cons_self _ _
          · rw [List.map_cons]; exact List.mem_cons_of_mem _ h
  · simp [calculateFinalAffinity]
  · intro r s hrs
    have : Real.exp (-s) ≤ Real.exp (-r) := Real.exp_le_exp.mpr (neg_le_neg hrs)
    simpa [calculateFinalAffinity] using sub_le_sub_left this 1
  · intro r hr
    constructor
    · have : Real.exp (-r) ≤ 1 := Real.exp_le_one_iff.mpr (neg_nonpos.mpr hr)
      simpa [calculateFinalAffinity] using this
    · have : 0 < Real.exp (-r) := Real.exp_pos (-r)
      simpa [calculateFinalAffinity] using this

/-- C6 witness: the theorem applied to a concrete one-element signal list and
to the concrete raw signals 0 and 1. -/
theorem c6_raw_signal_and_affinity_witness :
    (([⟨"a", (1 : ℝ)⟩] : List WeightedSignal) ≠ []) ∧
    (∀ s ∈ ([⟨"a", (1 : ℝ)⟩] : List WeightedSignal),
      s.signal ≤ calculateRawSignal [⟨"a", (1 : ℝ)⟩]) ∧
    calculateRawSignal [⟨"a", (1 : ℝ)⟩] ∈
      ([⟨"a", (1 : ℝ)⟩] : List WeightedSignal).map (·.signal) ∧
    ((0 : ℝ) ≤ 1) ∧
    calculateFinalAffinity 0 ≤ calculateFinalAffinity 1 ∧
    ((0 : ℝ) ≤ 0) ∧
    0 ≤ calculateFinalAffinity 0 ∧ calculateFinalAffinity 0 < 1 :=
  ⟨by simp,
    (c6_raw_signal_and_affinity.2.1 [⟨"a", (1 : ℝ)⟩] (by simp)).1,
    (c6_raw_signal_and_affinity.2.1 [⟨"a", (1 : ℝ)⟩] (by simp)).2,
    by norm_num,
    c6_raw_signal_and_affinity.2.2.2.1 0 1 (by norm_num),
    le_refl 0,
    (c6_raw_signal_and_affinity.2.2.2.2 0 (le_refl 0)).1,
    (c6_raw_signal_and_affinity.2.2.2.2 0 (le_refl 0)).2⟩

/-- C7: `isCustomerEligible` is true exactly when the goal category is absent
from the history's category map and the last order date is at or after
`referenceDate - activityDays`; in particular a customer who purchased the
goal category is never eligible. -/
theorem c7_eligibility (ph : CustomerPurchaseHistory) (goal : String)
    (activityDays referenceDate : ℤ) :
    (isCustomerEligible ph goal activityDays referenceDate = true ↔
      (mapHas ph.categories goal = false ∧
        referenceDate - activityDays ≤ ph.lastOrderDate)) ∧
    (mapHas ph.categories goal = true →
      isCustomerEligible ph goal activityDays referenceDate = false) := by
  constructor
  · unfold isCustomerEligible
    cases h : mapHas ph.categories goal <;> simp [h]
  · intro h
    unfold isCustomerEligible
    simp [h]

/-- C7 witness: a concrete history containing the goal category is ineligible
for every window; instantiated at window 5 and reference date 3. -/
theorem c7_eligibility_witness :
    (mapHas ([("g", ⟨"g", 1, 0, true⟩)] :
        List (String × CategoryPurchaseInfo)) "g" = true) ∧
    isCustomerEligible ⟨"c", [("g", ⟨"g", 1, 0, true⟩)], 0, 1⟩ "g" 5 3 = false :=
  ⟨by decide,
    (c7_eligibility ⟨"c", [("g", ⟨"g", 1, 0, true⟩)], 0, 1⟩ "g" 5 3).2 (by decide)⟩

theorem processStep_one (orders : List Order) (m : CoAffinityMatrix)
    (goal : String) (days ref : ℤ) (idx : List (String × ℕ))
    (acc : ProcessOutput) (c : Customer) :
    ((processCustomerStep orders m goal days ref idx acc c).results.length +
        (processCustomerStep orders m goal days ref idx acc c).skipped.length =
      acc.results.length + acc.skipped.length + 1) ∧
    (∀ e ∈ (processCustomerStep orders m goal days ref idx acc c).skipped,
      e ∈ acc.skipped ∨ e.2 = "No orders" ∨
        e.2 = "Already purchased goal category" ∨ e.2 = "Not active in window") := by
  unfold processCustomerStep
  cases hb : buildCustomerPurchaseHistory c.id orders with
  | none =>
      dsimp only
      constructor
      · simp only [List.length_append, List.length_singleton]
        omega
      · intro e he
        simp only [List.mem_append, List.mem_singleton] at he
        rcases he with h | h
        · exact Or.inl h
        · exact Or.inr (Or.inl (by rw [h]))
  | some ph =>
      dsimp only
      by_cases he : isCustomerEligible ph goal days ref
      · rw [if_pos he]
        dsimp only
        constructor
        · simp only [List.length_append, List.length_singleton]
          omega
        · intro e hmem
          exact Or.inl hmem
      · rw [if_neg he]
        dsimp only
        constructor
        · simp only [List.length_append, List.length_singleton]
          omega
        · intro e hmem
          simp only [List.mem_append, List.mem_singleton] at hmem
          rcases hmem with h | h
          · exact Or.inl h
          · by_cases hg : mapHas ph.categories goal
            · rw [if_pos hg] at h
              exact Or.inr (Or.inr (Or.inl (by rw [h])))
            · rw [if_neg hg] at h
              exact Or.inr (Or.inr (Or.inr (by rw [h])))

theorem processFold_total (orders : List Order) (m : CoAffinityMatrix)
    (goal : String) (days ref : ℤ) (idx : List (String × ℕ)) :
    ∀ (customers : List Customer) (acc : ProcessOutput),
      ((customers.foldl (processCustomerStep orders m goal days ref idx) acc).results.length +
          (customers.foldl (processCustomerStep orders m goal days ref idx) acc).skipped.length =
        acc.results.length + acc.skipped.length + customers.length) ∧
      (∀ e ∈ (customers.foldl (processCustomerStep orders m goal days ref idx) acc).skipped,
        e ∈ acc.skipped ∨ e.2 = "No orders" ∨
          e.2 = "Already purchased goal category" ∨ e.2 = "Not active in window") := by
  intro customers
  induction customers with
  | nil =>
      intro acc
      exact ⟨by simp, fun e he => Or.inl he⟩
  | cons c cs ih =>
      intro acc
      rw [List.foldl_cons]
      obtain ⟨hlen, hmem⟩ := ih (processCustomerStep orders m goal days ref idx acc c)
      obtain ⟨hlen1, hmem1⟩ := processStep_one orders m goal days ref idx acc c
      constructor
      · rw [hlen, hlen1]
        simp only [List.length_cons]
        omega
      · intro e he
        rcases hmem e he with h | h
        · exact hmem1 e h
        · exact Or.inr h

/-- C8: `processAllCustomers` aborts with the error message naming the goal
category and listing the valid category set whenever the goal is absent
from the matrix's categories — independently of the customer list, so no
partial results or skip records are produced — and for a valid goal it
returns normally, giving every customer exactly one disposition (a result
or one locally recorded skip reason) without interrupting the batch. -/
theorem c8_goal_validation (customers : List Customer) (orders : List Order)
    (m : CoAffinityMatrix) (goal : String) (activeDays referenceDate : ℤ) :
    (m.categories.contains goal = false →
      processAllCustomers customers orders m goal activeDays referenceDate =
        .error (goalNotFoundMessage goal m.categories)) ∧
    (m.categories.contains goal = true →
      ∃ out, processAllCustomers customers orders m goal activeDays referenceDate =
          .ok out ∧
        out.results.length + out.skipped.length = customers.length ∧
        ∀ e ∈ out.skipped, e.2 = "No orders" ∨
          e.2 = "Already purchased goal category" ∨ e.2 = "Not active in window") := by
  constructor
  · intro h
    unfold processAllCustomers
    rw [if_pos (by simpa using h)]
  · intro h
    unfold processAllCustomers
    rw [if_neg (by simpa using h)]
    refine ⟨_, rfl, ?_, ?_⟩
    · have := (processFold_total orders m goal activeDays referenceDate
        (createCategoryIndexMap m) customers ⟨[], []⟩).1
      simpa using this
    · intro e he
      have := (processFold_total orders m goal activeDays referenceDate
        (createCategoryIndexMap m) customers ⟨[], []⟩).2 e he
      rcases this with h0 | h0
      · cases h0
      · exact h0

/-- C8 witness: the theorem applied at an unknown goal category `"c"` (the
error case, over a nonempty customer list) and at the valid goal `"a"`. -/
theorem c8_goal_validation_witness :
    ((["a", "b"] : List String).contains "c" = false ∧
      processAllCustomers [⟨"c1", "n", "e", 0⟩] [] ⟨["a", "b"], [[0, 0], [0, 0]]⟩
          "c" 30 100 =
        .error (goalNotFoundMessage "c" ["a", "b"])) ∧
    ((["a", "b"] : List String).contains "a" = true ∧
      ∃ out, processAllCustomers [] [] ⟨["a", "b"], [[0, 0], [0, 0]]⟩ "a" 30 100 =
          .ok out ∧
        out.results.length + out.skipped.length = ([] : List Customer).length ∧
        ∀ e ∈ out.skipped, e.2 = "No orders" ∨
          e.2 = "Already purchased goal category" ∨ e.2 = "Not active in window") :=
  ⟨⟨by decide,
    (c8_goal_validation [⟨"c1", "n", "e", 0⟩] [] ⟨["a", "b"], [[0, 0], [0, 0]]⟩
      "c" 30 100).1 (by decide)⟩,
   ⟨by decide,
    (c8_goal_validation [] [] ⟨["a", "b"], [[0, 0], [0, 0]]⟩ "a" 30 100).2
      (by decide)⟩⟩

/-- C10: in the batch loop body, an ineligible customer with history is
recorded with exactly one skip reason; a customer who purchased the goal
category — even one also outside the activity window — is recorded as
"Already purchased goal category", and "Not active in window" is recorded
only for customers who never purchased the goal category. -/
theorem c10_skip_reason_precedence (orders : List Order) (m : CoAffinityMatrix)
    (goal : String) (days ref : ℤ) (idx : List (String × ℕ))
    (acc : ProcessOutput) (c : Customer) :
    (∀ ph, buildCustomerPurchaseHistory c.id orders = some ph →
      isCustomerEligible ph goal days ref = false →
      (processCustomerStep orders m goal days ref idx acc c).results = acc.results ∧
      ∃ reason, (processCustomerStep orders m goal days ref idx acc c).skipped =
        acc.skipped ++ [(c.id, reason)]) ∧
    (∀ ph, buildCustomerPurchaseHistory c.id orders = some ph →
      mapHas ph.categories goal = true → ph.lastOrderDate < ref - days →
      (processCustomerStep orders m goal days ref idx acc c).skipped =
        acc.skipped ++ [(c.id, "Already purchased goal category")]) ∧
    (∀ ph, buildCustomerPurchaseHistory c.id orders = some ph →
      (processCustomerStep orders m goal days ref idx acc c).skipped =
        acc.skipped ++ [(c.id, "Not active in window")] →
      mapHas ph.categories goal = false) := by
  refine ⟨?_, ?_, ?_⟩
  · intro ph hb he
    unfold processCustomerStep
    rw [hb]
    dsimp only
    rw [if_neg (by simp [he])]
    exact ⟨rfl, _, rfl⟩
  · intro ph hb hg _hout
    have he : isCustomerEligible ph goal days ref = false := by
      unfold isCustomerEligible
      rw [if_pos hg]
    unfold processCustomerStep
    rw [hb]
    dsimp only
    rw [if_neg (by simp [he]), if_pos hg]
  · intro ph hb hskip
    by_cases hg : mapHas ph.categories goal
    · exfalso
      have he : isCustomerEligible ph goal days ref = false := by
        unfold isCustomerEligible
        rw [if_pos hg]
      unfold processCustomerStep at hskip
      rw [hb] at hskip
      dsimp only at hskip
      rw [if_neg (by simp [he]), if_pos hg] at hskip
      have := List.append_cancel_left hskip
      simp at this
    · simpa using hg

/-- C10 witness: a single-order customer who purchased the goal category and
whose last order lies outside the activity window gets exactly the
"Already purchased goal category" skip record. -/
theorem c10_skip_reason_precedence_witness :
    (buildCustomerPurchaseHistory "c1" [⟨"o1", "c1", [⟨"beauty", 1, 1⟩], 0, 1⟩] =
      some ⟨"c1", [("beauty", ⟨"beauty", 1, 0, true⟩)], 0, 1⟩) ∧
    (mapHas ([("beauty", (⟨"beauty", 1, 0, true⟩ : CategoryPurchaseInfo))] :
        List (String × CategoryPurchaseInfo)) "beauty" = true) ∧
    ((0 : ℤ) < 100 - 5) ∧
    (processCustomerStep [⟨"o1", "c1", [⟨"beauty", 1, 1⟩], 0, 1⟩]
        ⟨["beauty"], [[0]]⟩ "beauty" 5 100 [("beauty", 0)]
        ⟨[], []⟩ ⟨"c1", "n", "e", 0⟩).skipped =
      [] ++ [("c1", "Already purchased goal category")] :=
  ⟨by decide, by decide, by decide,
    (c10_skip_reason_precedence [⟨"o1", "c1", [⟨"beauty", 1, 1⟩], 0, 1⟩]
      ⟨["beauty"], [[0]]⟩ "beauty" 5 100 [("beauty", 0)] ⟨[], []⟩
      ⟨"c1", "n", "e", 0⟩).2.1 ⟨"c1", [("beauty", ⟨"beauty", 1, 0, true⟩)], 0, 1⟩
      (by decide) (by decide) (by decide)⟩

theorem calculatePercentile_eq_interp (values : List ℚ) (p : ℚ)
    (h : ¬ values = []) :
    calculatePercentile values p =
      interp (values.insertionSort (· ≤ ·))
        (p / 100 * ((values.length : ℚ) - 1)) := by
  unfold calculatePercentile interp
  rw [if_neg h]

theorem sorted_getD_mono {s : List ℚ} (hs : List.Sorted (· ≤ ·) s)
    {a b : ℕ} (hab : a ≤ b) (hb : b < s.length) :
    s.getD a 0 ≤ s.getD b 0 := by
  rcases eq_or_lt_of_le hab with h | h
  · subst h
    exact le_refl _
  · have ha : a < s.length := lt_trans h hb
    rw [List.getD_eq_getElem?_getD, List.getElem?_eq_getElem ha,
      List.getD_eq_getElem?_getD, List.getElem?_eq_getElem hb]
    simp only [Option.getD_some]
    have := hs.rel_get_of_lt
      (show (⟨a, ha⟩ : Fin s.length) < ⟨b, hb⟩ from h)
    simpa using this

theorem interp_bounds {s : List ℚ} (hs : List.Sorted (· ≤ ·) s) {t : ℚ}
    (_ht0 : 0 ≤ t) (htc : ⌈t⌉.toNat < s.length) :
    s.getD ⌊t⌋.toNat 0 ≤ interp s t ∧ interp s t ≤ s.getD ⌈t⌉.toNat 0 := by
  have hfc : ⌊t⌋ ≤ ⌈t⌉ := Int.floor_le_ceil t
  have htn : ⌊t⌋.toNat ≤ ⌈t⌉.toNat := Int.toNat_le_toNat hfc
  have hl : s.getD ⌊t⌋.toNat 0 ≤ s.getD ⌈t⌉.toNat 0 := sorted_getD_mono hs htn htc
  unfold interp
  by_cases hif : ⌊t⌋ = ⌈t⌉
  · rw [if_pos hif]
    exact ⟨le_refl _, hl⟩
  · rw [if_neg hif]
    have hfr0 : 0 ≤ t - (⌊t⌋ : ℚ) := sub_nonneg.mpr (Int.floor_le t)
    have hfr1 : t - (⌊t⌋ : ℚ) ≤ 1 := by
      have := Int.sub_one_lt_floor t
      linarith
    constructor
    · have h1 : 0 ≤ (t - (⌊t⌋ : ℚ)) * (s.getD ⌈t⌉.toNat 0 - s.getD ⌊t⌋.toNat 0) :=
        mul_nonneg hfr0 (sub_nonneg.mpr hl)
      linarith
    · have h2 : (t - (⌊t⌋ : ℚ)) * (s.getD ⌈t⌉.toNat 0 - s.getD ⌊t⌋.toNat 0) ≤
          1 * (s.getD ⌈t⌉.toNat 0 - s.getD ⌊t⌋.toNat 0) :=
        mul_le_mul_of_nonneg_right hfr1 (sub_nonneg.mpr hl)
      linarith

theorem interp_mono {s : List ℚ} (hs : List.Sorted (· ≤ ·) s) {t₁ t₂ : ℚ}
    (h0 : 0 ≤ t₁) (h12 : t₁ ≤ t₂) (h1 : t₂ ≤ (s.length : ℚ) - 1)
    (hpos : 0 < s.length) :
    interp s t₁ ≤ interp s t₂ := by
  have h02 : (0 : ℚ) ≤ t₂ := le_trans h0 h12
  have hc2 : ⌈t₂⌉ ≤ (s.length : ℤ) - 1 := by
    apply Int.ceil_le.mpr
    push_cast
    exact h1
  have hc2n : ⌈t₂⌉.toNat < s.length := by
    have h2 : ⌈t₂⌉.toNat ≤ ((s.length : ℤ) - 1).toNat := Int.toNat_le_toNat hc2
    have h3 : ((s.length : ℤ) - 1).toNat = s.length - 1 := by omega
    omega
  have hc1le : ⌈t₁⌉ ≤ ⌈t₂⌉ := Int.ceil_le_ceil h12
  have hc1n : ⌈t₁⌉.toNat < s.length :=
    lt_of_le_of_lt (Int.toNat_le_toNat hc1le) hc2n
  have hf2c : ⌊t₂⌋ ≤ ⌈t₂⌉ := Int.floor_le_ceil t₂
  have hf2n : ⌊t₂⌋.toNat < s.length :=
    lt_of_le_of_lt (Int.toNat_le_toNat hf2c) hc2n
  by_cases hcase : ⌈t₁⌉ ≤ ⌊t₂⌋
  · calc interp s t₁ ≤ s.getD ⌈t₁⌉.toNat 0 := (interp_bounds hs h0 hc1n).2
      _ ≤ s.getD ⌊t₂⌋.toNat 0 :=
        sorted_getD_mono hs (Int.toNat_le_toNat hcase) hf2n
      _ ≤ interp s t₂ := (interp_bounds hs h02 hc2n).1
  · push_neg at hcase
    have hf12 : ⌊t₁⌋ ≤ ⌊t₂⌋ := Int.floor_le_floor h12
    have hceil1 : ⌈t₁⌉ ≤ ⌊t₁⌋ + 1 := Int.ceil_le_floor_add_one t₁
    have heq : ⌊t₁⌋ = ⌊t₂⌋ := by omega
    have hne1 : ⌊t₁⌋ ≠ ⌈t₁⌉ := by omega
    have hc1eq : ⌈t₁⌉ = ⌊t₁⌋ + 1 := by
      have := Int.floor_le_ceil t₁
      omega
    have hlt1 : (⌊t₁⌋ : ℚ) < t₁ := by
      rcases eq_or_lt_of_le (Int.floor_le t₁) with he | hlt
      · exfalso
        apply hne1
        rw [show t₁ = ((⌊t₁⌋ : ℤ) : ℚ) from he.symm]
        simp
      · exact hlt
    have hne2 : ⌊t₂⌋ ≠ ⌈t₂⌉ := by
      intro hcontr
      have hup : t₂ ≤ (⌈t₂⌉ : ℚ) := Int.le_ceil t₂
      have : (⌊t₂⌋ : ℚ) < t₂ := by
        rw [← heq]
        exact lt_of_lt_of_le hlt1 h12
      rw [hcontr] at this
      linarith
    have hc2eq : ⌈t₂⌉ = ⌊t₂⌋ + 1 := by
      have h4 := Int.floor_le_ceil t₂
      have h5 := Int.ceil_le_floor_add_one t₂
      omega
    unfold interp
    rw [if_neg hne1, if_neg hne2, heq, hc1eq, hc2eq, heq]
    have hdiff : 0 ≤ s.getD (⌊t₂⌋ + 1).toNat 0 - s.getD ⌊t₂⌋.toNat 0 := by
      apply sub_nonneg.mpr
      apply sorted_getD_mono hs (by omega)
      have : (⌊t₂⌋ + 1).toNat = ⌈t₂⌉.toNat := by omega
      rw [this]
      exact hc2n
    have hmul := mul_le_mul_of_nonneg_right
      (show t₁ - ((⌊t₂⌋ : ℤ) : ℚ) ≤ t₂ - ((⌊t₂⌋ : ℤ) : ℚ) by linarith) hdiff
    linarith

theorem calculatePercentile_mono (values : List ℚ) {p q : ℚ}
    (hp : 0 ≤ p) (hpq : p ≤ q) (hq : q ≤ 100) :
    calculatePercentile values p ≤ calculatePercentile values q := by
  by_cases h : values = []
  · subst h
    unfold calculatePercentile
    simp
  · rw [calculatePercentile_eq_interp _ _ h, calculatePercentile_eq_interp _ _ h]
    have hs : List.Sorted (· ≤ ·) (values.insertionSort (· ≤ ·)) :=
      List.sorted_insertionSort _ _
    have hlen : (values.insertionSort (· ≤ ·)).length = values.length :=
      (List.perm_insertionSort _ _).length_eq
    have hlen1 : 0 < values.length := List.length_pos.mpr h
    have hn1 : (0 : ℚ) ≤ (values.length : ℚ) - 1 := by
      have h1 : (1 : ℚ) ≤ (values.length : ℚ) := by exact_mod_cast hlen1
      linarith
    apply interp_mono hs
    · exact mul_nonneg (div_nonneg hp (by norm_num)) hn1
    · exact mul_le_mul_of_nonneg_right (by gcongr) hn1
    · rw [hlen]
      have hq1 : q / 100 ≤ 1 := (div_le_one (by norm_num)).mpr hq
      have := mul_le_mul_of_nonneg_right hq1 hn1
      linarith
    · rw [hlen]
      exact hlen1

theorem entry_enum_map (m : List (List ℚ)) (f : ℕ → ℕ → ℚ → ℚ) {i j : ℕ}
    (hi : i < m.length) (hj : j < (m.getD i []).length) :
    entry (m.enum.map fun p => p.2.enum.map fun q => f p.1 q.1 q.2) i j =
      f i j (entry m i j) := by
  have hrow : m.getD i [] = m[i] := List.getD_eq_getElem m [] hi
  have hj' : j < m[i].length := by rw [← hrow]; exact hj
  have hi1 : i < (m.enum.map fun p => p.2.enum.map fun q => f p.1 q.1 q.2).length := by
    rw [List.length_map, List.enum_length]
    exact hi
  have hi2 : i < m.enum.length := by
    rw [List.enum_length]
    exact hi
  unfold entry
  rw [List.getD_eq_getElem _ _ hi1, List.getElem_map, List.getElem_enum]
  dsimp only
  have hj1 : j < (m[i].enum.map fun q => f i q.1 q.2).length := by
    rw [List.length_map, List.enum_length]
    exact hj'
  rw [List.getD_eq_getElem _ _ hj1, List.getElem_map, List.getElem_enum]
  dsimp only
  rw [hrow, List.getD_eq_getElem _ _ hj']

theorem clamp_idem (v mn mx : ℚ) : clamp (clamp v mn mx) mn mx = clamp v mn mx := by
  unfold clamp
  simp only [max_def, min_def]
  split_ifs <;> linarith

theorem normalizeP5P95_eq (v p5 p95 : ℚ) :
    normalizeP5P95 v p5 p95 =
      if p95 = p5 then 0 else (clamp v p5 p95 - p5) / (p95 - p5) := by
  unfold normalizeP5P95 normalizeToRange
  by_cases h : p95 = p5
  · rw [if_pos h, if_pos h]
  · rw [if_neg h, if_neg h, if_neg h, clamp_idem]

theorem normalizeMatrix_defaults (m : List (List ℚ)) :
    (normalizeMatrixP5P95 m none none).p5 =
        calculatePercentile (extractMatrixValues m) 5 ∧
      (normalizeMatrixP5P95 m none none).p95 =
        calculatePercentile (extractMatrixValues m) 95 ∧
      (normalizeMatrixP5P95 m none none).normalizedMatrix =
        m.enum.map fun p => p.2.enum.map fun q =>
          if p.1 = q.1 then 0
          else normalizeP5P95 q.2 (calculatePercentile (extractMatrixValues m) 5)
            (calculatePercentile (extractMatrixValues m) 95) :=
  ⟨rfl, rfl, rfl⟩

/-- C3: with defaulted bounds, `normalizeMatrixP5P95` takes its percentile
sample exactly from the strictly positive off-diagonal upper-triangle
values; every off-diagonal cell with value `v` becomes
`(clamp(v, P5, P95) - P5) / (P95 - P5)` except that `P95 = P5` sends every
off-diagonal cell to 0; the diagonal is forced to 0; a cell equal to P5
maps to 0, and (when the bounds differ) a cell equal to P95 maps to 1. -/
theorem c3_normalize_matrix (m : List (List ℚ)) :
    ((normalizeMatrixP5P95 m none none).p5 =
        calculatePercentile
          ((m.enum.flatMap fun p => p.2.drop (p.1 + 1)).filter (fun v => 0 < v)) 5 ∧
      (normalizeMatrixP5P95 m none none).p95 =
        calculatePercentile
          ((m.enum.flatMap fun p => p.2.drop (p.1 + 1)).filter (fun v => 0 < v)) 95) ∧
    (∀ i j, i < m.length → j < (m.getD i []).length → i ≠ j →
      entry (normalizeMatrixP5P95 m none none).normalizedMatrix i j =
        if (normalizeMatrixP5P95 m none none).p95 = (normalizeMatrixP5P95 m none none).p5
        then 0
        else (clamp (entry m i j) (normalizeMatrixP5P95 m none none).p5
            (normalizeMatrixP5P95 m none none).p95 -
          (normalizeMatrixP5P95 m none none).p5) /
          ((normalizeMatrixP5P95 m none none).p95 -
            (normalizeMatrixP5P95 m none none).p5)) ∧
    (∀ i, i < m.length → i < (m.getD i []).length →
      entry (normalizeMatrixP5P95 m none none).normalizedMatrix i i = 0) ∧
    (∀ i j, i < m.length → j < (m.getD i []).length → i ≠ j →
      entry m i j = (normalizeMatrixP5P95 m none none).p5 →
      entry (normalizeMatrixP5P95 m none none).normalizedMatrix i j = 0) ∧
    (∀ i j, i < m.length → j < (m.getD i []).length → i ≠ j →
      entry m i j = (normalizeMatrixP5P95 m none none).p95 →
      (normalizeMatrixP5P95 m none none).p5 ≠ (normalizeMatrixP5P95 m none none).p95 →
      entry (normalizeMatrixP5P95 m none none).normalizedMatrix i j = 1) := by
  obtain ⟨hp5, hp95, hmat⟩ := normalizeMatrix_defaults m
  have hsample : extractMatrixValues m =
      (m.enum.flatMap fun p => p.2.drop (p.1 + 1)).filter (fun v => 0 < v) := by
    unfold extractMatrixValues
    rw [List.filter_flatMap]
  have hentry : ∀ i j, i < m.length → j < (m.getD i []).length →
      entry (normalizeMatrixP5P95 m none none).normalizedMatrix i j =
        if i = j then 0
        else normalizeP5P95 (entry m i j)
          (calculatePercentile (extractMatrixValues m) 5)
          (calculatePercentile (extractMatrixValues m) 95) := by
    intro i j hi hj
    rw [hmat]
    exact entry_enum_map m
      (fun a b v => if a = b then 0
        else normalizeP5P95 v (calculatePercentile (extractMatrixValues m) 5)
          (calculatePercentile (extractMatrixValues m) 95)) hi hj
  refine ⟨⟨by rw [hp5, hsample], by rw [hp95, hsample]⟩, ?_, ?_, ?_, ?_⟩
  · intro i j hi hj hij
    rw [hentry i j hi hj, if_neg hij, normalizeP5P95_eq, hp5, hp95]
  · intro i hi hj
    rw [hentry i i hi hj, if_pos rfl]
  · intro i j hi hj hij hv
    rw [hp5] at hv
    rw [hentry i j hi hj, if_neg hij, normalizeP5P95_eq, hv]
    by_cases hpe : calculatePercentile (extractMatrixValues m) 95 =
        calculatePercentile (extractMatrixValues m) 5
    · rw [if_pos hpe]
    · rw [if_neg hpe]
      have hcl : clamp (calculatePercentile (extractMatrixValues m) 5)
          (calculatePercentile (extractMatrixValues m) 5)
          (calculatePercentile (extractMatrixValues m) 95) =
          calculatePercentile (extractMatrixValues m) 5 := by
        unfold clamp
        exact max_eq_left (min_le_right _ _)
      rw [hcl, sub_self, zero_div]
  · intro i j hi hj hij hv hne
    rw [hp5, hp95] at hne
    rw [hp95] at hv
    have hle : calculatePercentile (extractMatrixValues m) 5 ≤
        calculatePercentile (extractMatrixValues m) 95 :=
      calculatePercentile_mono (extractMatrixValues m) (by norm_num) (by norm_num)
        (by norm_num)
    rw [hentry i j hi hj, if_neg hij, normalizeP5P95_eq, hv,
      if_neg (fun hcontr => hne hcontr.symm)]
    have hcl : clamp (calculatePercentile (extractMatrixValues m) 95)
        (calculatePercentile (extractMatrixValues m) 5)
        (calculatePercentile (extractMatrixValues m) 95) =
        calculatePercentile (extractMatrixValues m) 95 := by
      unfold clamp
      rw [min_self]
      exact max_eq_right hle
    rw [hcl]
    exact div_self (sub_ne_zero.mpr (Ne.symm hne))

theorem percentileSingleFive : calculatePercentile [2] 5 = 2 := by
  rw [calculatePercentile_eq_interp _ _ (by simp),
    show ([2] : List ℚ).insertionSort (· ≤ ·) = [2] from rfl,
    show (5 : ℚ) / 100 * ((([2] : List ℚ).length : ℚ) - 1) = 0 from by norm_num]
  unfold interp
  norm_num

theorem percentileQuadFive : calculatePercentile [1, 2, 3, 3] 5 = 23 / 20 := by
  rw [calculatePercentile_eq_interp _ _ (by simp),
    show ([1, 2, 3, 3] : List ℚ).insertionSort (· ≤ ·) = [1, 2, 3, 3] from rfl,
    show (5 : ℚ) / 100 * ((([1, 2, 3, 3] : List ℚ).length : ℚ) - 1) = 3 / 20 from by
      norm_num]
  unfold interp
  rw [show ⌊(3 : ℚ) / 20⌋ = 0 from by norm_num,
    show ⌈(3 : ℚ) / 20⌉ = 1 from by
      rw [Int.ceil_eq_iff]
      norm_num]
  rw [if_neg (by decide),
    show ([1, 2, 3, 3] : List ℚ).getD (Int.toNat 0) 0 = 1 from rfl,
    show ([1, 2, 3, 3] : List ℚ).getD (Int.toNat 1) 0 = 2 from rfl]
  norm_num

theorem percentileQuadNinetyFive : calculatePercentile [1, 2, 3, 3] 95 = 3 := by
  rw [calculatePercentile_eq_interp _ _ (by simp),
    show ([1, 2, 3, 3] : List ℚ).insertionSort (· ≤ ·) = [1, 2, 3, 3] from rfl,
    show (95 : ℚ) / 100 * ((([1, 2, 3, 3] : List ℚ).length : ℚ) - 1) = 57 / 20 from by
      norm_num]
  unfold interp
  rw [show ⌊(57 : ℚ) / 20⌋ = 2 from by norm_num,
    show ⌈(57 : ℚ) / 20⌉ = 3 from by
      rw [Int.ceil_eq_iff]
      norm_num]
  rw [if_neg (by decide),
    show ([1, 2, 3, 3] : List ℚ).getD (Int.toNat 2) 0 = 3 from rfl,
    show ([1, 2, 3, 3] : List ℚ).getD (Int.toNat 3) 0 = 3 from rfl]
  norm_num

/-- C3 witness: the theorem applied to the concrete matrix `[[0,2],[2,0]]`
(whose positive sample is `[2]`, so P5 = P95 = 2: off-diagonal formula,
diagonal, and the value-at-P5 case) and to `[[0,1,2,3,3]]`
(sample `[1,2,3,3]`, P5 = 23/20, P95 = 3: the value-at-P95 case maps to 1). -/
theorem c3_normalize_matrix_witness :
    ((0 : ℕ) < 2 ∧ (1 : ℕ) < 2 ∧ (0 : ℕ) ≠ 1) ∧
    (entry (normalizeMatrixP5P95 [[0, 2], [2, 0]] none none).normalizedMatrix 0 1 =
      if (normalizeMatrixP5P95 [[0, 2], [2, 0]] none none).p95 =
          (normalizeMatrixP5P95 [[0, 2], [2, 0]] none none).p5 then 0
      else (clamp (entry [[0, 2], [2, 0]] 0 1)
          (normalizeMatrixP5P95 [[0, 2], [2, 0]] none none).p5
          (normalizeMatrixP5P95 [[0, 2], [2, 0]] none none).p95 -
        (normalizeMatrixP5P95 [[0, 2], [2, 0]] none none).p5) /
        ((normalizeMatrixP5P95 [[0, 2], [2, 0]] none none).p95 -
          (normalizeMatrixP5P95 [[0, 2], [2, 0]] none none).p5)) ∧
    (entry (normalizeMatrixP5P95 [[0, 2], [2, 0]] none none).normalizedMatrix 0 0 = 0) ∧
    (entry [[0, 2], [2, 0]] 0 1 =
        (normalizeMatrixP5P95 [[0, 2], [2, 0]] none none).p5 ∧
      entry (normalizeMatrixP5P95 [[0, 2], [2, 0]] none none).normalizedMatrix 0 1 = 0) ∧
    (entry [[0, 1, 2, 3, 3]] 0 3 =
        (normalizeMatrixP5P95 [[0, 1, 2, 3, 3]] none none).p95 ∧
      (normalizeMatrixP5P95 [[0, 1, 2, 3, 3]] none none).p5 ≠
        (normalizeMatrixP5P95 [[0, 1, 2, 3, 3]] none none).p95 ∧
      entry (normalizeMatrixP5P95 [[0, 1, 2, 3, 3]] none none).normalizedMatrix 0 3 = 1) := by
  have hd5 : (normalizeMatrixP5P95 [[0, 2], [2, 0]] none none).p5 = 2 := by
    rw [(normalizeMatrix_defaults [[0, 2], [2, 0]]).1,
      show extractMatrixValues [[0, 2], [2, 0]] = [2] from rfl]
    exact percentileSingleFive
  have hq5 : (normalizeMatrixP5P95 [[0, 1, 2, 3, 3]] none none).p5 = 23 / 20 := by
    rw [(normalizeMatrix_defaults [[0, 1, 2, 3, 3]]).1,
      show extractMatrixValues [[0, 1, 2, 3, 3]] = [1, 2, 3, 3] from rfl]
    exact percentileQuadFive
  have hq95 : (normalizeMatrixP5P95 [[0, 1, 2, 3, 3]] none none).p95 = 3 := by
    rw [(normalizeMatrix_defaults [[0, 1, 2, 3, 3]]).2.1,
      show extractMatrixValues [[0, 1, 2, 3, 3]] = [1, 2, 3, 3] from rfl]
    exact percentileQuadNinetyFive
  obtain ⟨_, hb1, hc1, hd1, _⟩ := c3_normalize_matrix [[0, 2], [2, 0]]
  obtain ⟨_, _, _, _, he2⟩ := c3_normalize_matrix [[0, 1, 2, 3, 3]]
  have hv1 : entry [[0, 2], [2, 0]] 0 1 =
      (normalizeMatrixP5P95 [[0, 2], [2, 0]] none none).p5 := by
    rw [hd5]
    rfl
  have hv2 : entry [[0, 1, 2, 3, 3]] 0 3 =
      (normalizeMatrixP5P95 [[0, 1, 2, 3, 3]] none none).p95 := by
    rw [hq95]
    rfl
  have hv3 : (normalizeMatrixP5P95 [[0, 1, 2, 3, 3]] none none).p5 ≠
      (normalizeMatrixP5P95 [[0, 1, 2, 3, 3]] none none).p95 := by
    rw [hq5, hq95]
    norm_num
  exact ⟨⟨by decide, by decide, by decide⟩,
    hb1 0 1 (by decide) (by decide) (by decide),
    hc1 0 (by decide) (by decide),
    ⟨hv1, hd1 0 1 (by decide) (by decide) (by decide) hv1⟩,
    ⟨hv2, hv3, he2 0 3 (by decide) (by decide) (by decide) hv2 hv3⟩⟩

theorem jsSetList_nodup (l : List String) : (jsSetList l).Nodup := by
  induction l with
  | nil => exact List.nodup_nil
  | cons x xs ih =>
      refine List.Nodup.cons ?_ (List.Nodup.filter _ ih)
      intro hx
      have := List.of_mem_filter hx
      simp at this

theorem orderedPairs_ne {α : Type} {l : List α} (h : l.Nodup) :
    ∀ p ∈ orderedPairs l, p.1 ≠ p.2 := by
  induction l with
  | nil =>
      intro p hp
      cases hp
  | cons x xs ih =>
      intro p hp
      rcases List.mem_append.mp hp with hm | hm
      · obtain ⟨y, hy, hpy⟩ := List.mem_map.mp hm
        subst hpy
        intro hcontr
        simp only at hcontr
        exact (List.nodup_cons.mp h).1 (hcontr ▸ hy)
      · exact ih (List.nodup_cons.mp h).2 p hm

theorem mapGet_mem {β : Type} {m : List (String × β)} {k : String} {v : β}
    (h : mapGet m k = some v) : (k, v) ∈ m := by
  unfold mapGet at h
  cases hf : m.find? (fun e => e.1 = k) with
  | none => rw [hf] at h; cases h
  | some e =>
      rw [hf] at h
      simp only [Option.map_some', Option.some.injEq] at h
      have hmem := List.mem_of_find?_eq_some hf
      have hpred := List.find?_some hf
      simp only [decide_eq_true_eq] at hpred
      have : e = (k, v) := by
        obtain ⟨e1, e2⟩ := e
        simp only at hpred h
        rw [hpred, h]
      exact this ▸ hmem

theorem mapSet_mem {β : Type} {m : List (String × β)} {k : String} {v : β}
    {e : String × β} (h : e ∈ mapSet m k v) : e ∈ m ∨ e = (k, v) := by
  unfold mapSet at h
  by_cases hf : (m.find? (fun e => e.1 = k)).isSome
  · rw [if_pos hf] at h
    obtain ⟨e', he', heq⟩ := List.mem_map.mp h
    by_cases hk : e'.1 = k
    · rw [if_pos hk] at heq
      exact Or.inr heq.symm
    · rw [if_neg hk] at heq
      exact Or.inl (heq ▸ he')
  · rw [if_neg hf] at h
    rcases List.mem_append.mp h with hm | hm
    · exact Or.inl hm
    · exact Or.inr (List.mem_singleton.mp hm)

theorem buildIndexList_sound {ids : List String} {s : String} {k : ℕ}
    (h : mapGet (buildIndexList ids) s = some k) : ids[k]? = some s := by
  have hmem := mapGet_mem h
  unfold buildIndexList at hmem
  have hgen : ∀ (l : List (ℕ × String)) (acc : List (String × ℕ)),
      (∀ e ∈ acc, ids[e.2]? = some e.1) →
      (∀ p ∈ l, ids[p.1]? = some p.2) →
      ∀ e ∈ l.foldl (fun m p => mapSet m p.2 p.1) acc, ids[e.2]? = some e.1 := by
    intro l
    induction l with
    | nil => intro acc hacc _ e he; exact hacc e he
    | cons p ps ih =>
        intro acc hacc hl e he
        rw [List.foldl_cons] at he
        refine ih (mapSet acc p.2 p.1) ?_ (fun q hq => hl q (List.mem_cons_of_mem _ hq)) e he
        intro e' he'
        rcases mapSet_mem he' with hm | hm
        · exact hacc e' hm
        · rw [hm]
          exact hl p (List.mem_cons_self _ _)
  refine hgen ids.enum [] (by intro e he; cases he) ?_ _ hmem
  intro p hp
  exact List.mem_enum_iff_getElem?.mp hp

theorem buildIndexList_inj {ids : List String} {a b : String} {k : ℕ}
    (ha : mapGet (buildIndexList ids) a = some k)
    (hb : mapGet (buildIndexList ids) b = some k) : a = b := by
  have h1 := buildIndexList_sound ha
  have h2 := buildIndexList_sound hb
  rw [h1] at h2
  exact (Option.some.injEq _ _ ▸ h2).symm ▸ rfl

theorem bumpPair_preserves {f : ℕ → ℕ → ℚ} (hsym : ∀ a b, f a b = f b a)
    (hdiag : ∀ a, f a a = 0) {i j : ℕ} (hij : i ≠ j) :
    (∀ a b, bump (bump f i j) j i a b = bump (bump f i j) j i b a) ∧
    (∀ a, bump (bump f i j) j i a a = 0) := by
  constructor
  · intro a b
    show (if a = j ∧ b = i then (if a = i ∧ b = j then f a b + 1 else f a b) + 1
        else if a = i ∧ b = j then f a b + 1 else f a b) =
      (if b = j ∧ a = i then (if b = i ∧ a = j then f b a + 1 else f b a) + 1
        else if b = i ∧ a = j then f b a + 1 else f b a)
    have e1 : (b = j ∧ a = i) = (a = i ∧ b = j) := propext and_comm
    have e2 : (b = i ∧ a = j) = (a = j ∧ b = i) := propext and_comm
    simp only [e1, e2, hsym a b]
    by_cases hc1 : a = j ∧ b = i <;> by_cases hc2 : a = i ∧ b = j <;>
      simp [hc1, hc2, hij, Ne.symm hij]
  · intro a
    show (if a = j ∧ a = i then (if a = i ∧ a = j then f a a + 1 else f a a) + 1
        else if a = i ∧ a = j then f a a + 1 else f a a) = 0
    rw [if_neg (fun h => hij (h.2.symm.trans h.1)),
      if_neg (fun h => hij (h.1.symm.trans h.2))]
    exact hdiag a

theorem foldPairs_preserves (idx : List (String × ℕ))
    (hinj : ∀ a b k, mapGet idx a = some k → mapGet idx b = some k → a = b) :
    ∀ (ps : List (String × String)) (f : ℕ → ℕ → ℚ),
      (∀ p ∈ ps, p.1 ≠ p.2) →
      (∀ a b, f a b = f b a) → (∀ a, f a a = 0) →
      (∀ a b, (ps.foldl
          (fun m p =>
            match mapGet idx p.1, mapGet idx p.2 with
            | some i, some j => bump (bump m i j) j i
            | _, _ => m) f) a b =
        (ps.foldl
          (fun m p =>
            match mapGet idx p.1, mapGet idx p.2 with
            | some i, some j => bump (bump m i j) j i
            | _, _ => m) f) b a) ∧
      (∀ a, (ps.foldl
          (fun m p =>
            match mapGet idx p.1, mapGet idx p.2 with
            | some i, some j => bump (bump m i j) j i
            | _, _ => m) f) a a = 0) := by
  intro ps
  induction ps with
  | nil => intro f _ hsym hdiag; exact ⟨hsym, hdiag⟩
  | cons p ps ih =>
      intro f hne hsym hdiag
      rw [List.foldl_cons]
      have hstep :
          (∀ a b, (match mapGet idx p.1, mapGet idx p.2 with
              | some i, some j => bump (bump f i j) j i
              | _, _ => f) a b =
            (match mapGet idx p.1, mapGet idx p.2 with
              | some i, some j => bump (bump f i j) j i
              | _, _ => f) b a) ∧
          (∀ a, (match mapGet idx p.1, mapGet idx p.2 with
              | some i, some j => bump (bump f i j) j i
              | _, _ => f) a a = 0) := by
        cases h1 : mapGet idx p.1 with
        | none => exact ⟨hsym, hdiag⟩
        | some i =>
            cases h2 : mapGet idx p.2 with
            | none => exact ⟨hsym, hdiag⟩
            | some j =>
                have hij : i ≠ j := by
                  intro hcontr
                  subst hcontr
                  exact hne p (List.mem_cons_self _ _) (hinj p.1 p.2 i h1 h2)
                exact bumpPair_preserves hsym hdiag hij
      exact ih _ (fun q hq => hne q (List.mem_cons_of_mem _ hq)) hstep.1 hstep.2

theorem applyOrderPairs_preserves (idx : List (String × ℕ))
    (hinj : ∀ a b k, mapGet idx a = some k → mapGet idx b = some k → a = b)
    (cats : List String) (hnodup : cats.Nodup) (f : ℕ → ℕ → ℚ)
    (hsym : ∀ a b, f a b = f b a) (hdiag : ∀ a, f a a = 0) :
    (∀ a b, applyOrderPairs idx cats f a b = applyOrderPairs idx cats f b a) ∧
    (∀ a, applyOrderPairs idx cats f a a = 0) :=
  foldPairs_preserves idx hinj (orderedPairs cats) f (orderedPairs_ne hnodup)
    hsym hdiag

theorem coOrderFold_preserves (idx : List (String × ℕ))
    (hinj : ∀ a b k, mapGet idx a = some k → mapGet idx b = some k → a = b) :
    ∀ (orders : List Order) (st : (ℕ → ℕ → ℚ) × List (String × ℚ)),
      (∀ a b, st.1 a b = st.1 b a) → (∀ a, st.1 a a = 0) →
      (∀ a b, (orders.foldl
          (fun st order =>
            (applyOrderPairs idx (jsSetList (order.items.map (·.categoryId))) st.1,
             applyOrderCounts (jsSetList (order.items.map (·.categoryId))) st.2)) st).1 a b =
        (orders.foldl
          (fun st order =>
            (applyOrderPairs idx (jsSetList (order.items.map (·.categoryId))) st.1,
             applyOrderCounts (jsSetList (order.items.map (·.categoryId))) st.2)) st).1 b a) ∧
      (∀ a, (orders.foldl
          (fun st order =>
            (applyOrderPairs idx (jsSetList (order.items.map (·.categoryId))) st.1,
             applyOrderCounts (jsSetList (order.items.map (·.categoryId))) st.2)) st).1 a a = 0) := by
  intro orders
  induction orders with
  | nil => intro st hsym hdiag; exact ⟨hsym, hdiag⟩
  | cons o os ih =>
      intro st hsym hdiag
      rw [List.foldl_cons]
      have hstep := applyOrderPairs_preserves idx hinj
        (jsSetList (o.items.map (·.categoryId)))
        (jsSetList_nodup (o.items.map (·.categoryId))) st.1 hsym hdiag
      exact ih _ hstep.1 hstep.2

theorem rangeMatrix_symmEntry (n : ℕ) (g : ℕ → ℕ → ℚ)
    (hs : ∀ a b, g a b = g b a) :
    SymmEntry ((List.range n).map fun i => (List.range n).map fun j => g i j) := by
  intro i j
  rw [entry_range_map, entry_range_map]
  by_cases hi : i < n <;> by_cases hj : j < n <;> simp [hi, hj, hs i j]

theorem rangeMatrix_zeroDiag (n : ℕ) (g : ℕ → ℕ → ℚ)
    (hd : ∀ a, g a a = 0) :
    ZeroDiag ((List.range n).map fun i => (List.range n).map fun j => g i j) := by
  intro i
  rw [entry_range_map]
  by_cases hi : i < n <;> simp [hi, hd i]

theorem rangeMatrix_square (n : ℕ) (g : ℕ → ℕ → ℚ) :
    ((List.range n).map fun i => (List.range n).map fun j => g i j).length = n ∧
    ∀ row ∈ (List.range n).map fun i => (List.range n).map fun j => g i j,
      row.length = n := by
  constructor
  · rw [List.length_map, List.length_range]
  · intro row hrow
    obtain ⟨i, _, hrw⟩ := List.mem_map.mp hrow
    rw [← hrw, List.length_map, List.length_range]

theorem entry_enum_map_oob (m : List (List ℚ)) (f : ℕ → ℕ → ℚ → ℚ) {i j : ℕ}
    (h : m.length ≤ i ∨ (m.getD i []).length ≤ j) :
    entry (m.enum.map fun p => p.2.enum.map fun q => f p.1 q.1 q.2) i j = 0 := by
  by_cases hi : i < m.length
  · rcases h with hh | hh
    · omega
    · have hrow : m.getD i [] = m[i] := List.getD_eq_getElem m [] hi
      have hi1 : i < (m.enum.map fun p => p.2.enum.map fun q => f p.1 q.1 q.2).length := by
        rw [List.length_map, List.enum_length]
        exact hi
      unfold entry
      rw [List.getD_eq_getElem _ _ hi1, List.getElem_map, List.getElem_enum]
      dsimp only
      rw [List.getD_eq_getElem?_getD,
        List.getElem?_eq_none
          (by rw [List.length_map, List.enum_length, ← hrow]; exact hh)]
      rfl
  · unfold entry
    rw [List.getD_eq_getElem?_getD, List.getD_eq_getElem?_getD,
      show (m.enum.map fun p => p.2.enum.map fun q => f p.1 q.1 q.2)[i]? = none from
        List.getElem?_eq_none (by rw [List.length_map, List.enum_length]; omega)]
    simp

theorem normalizeMatrix_preserves (m : List (List ℚ)) (p5o p95o : Option ℚ)
    (hsq : ∀ row ∈ m, row.length = m.length) (hsym : SymmEntry m) :
    SymmEntry (normalizeMatrixP5P95 m p5o p95o).normalizedMatrix ∧
    ZeroDiag (normalizeMatrixP5P95 m p5o p95o).normalizedMatrix := by
  have hrowlen : ∀ i, i < m.length → (m.getD i []).length = m.length := by
    intro i hi
    rw [List.getD_eq_getElem m [] hi]
    exact hsq _ (List.getElem_mem hi)
  have hmat : (normalizeMatrixP5P95 m p5o p95o).normalizedMatrix =
      m.enum.map fun p => p.2.enum.map fun q =>
        if p.1 = q.1 then 0
        else normalizeP5P95 q.2
          (p5o.getD (calculatePercentile (extractMatrixValues m) 5))
          (p95o.getD (calculatePercentile (extractMatrixValues m) 95)) := rfl
  have hentry : ∀ i j, i < m.length → j < m.length →
      entry (normalizeMatrixP5P95 m p5o p95o).normalizedMatrix i j =
        if i = j then 0
        else normalizeP5P95 (entry m i j)
          (p5o.getD (calculatePercentile (extractMatrixValues m) 5))
          (p95o.getD (calculatePercentile (extractMatrixValues m) 95)) := by
    intro i j hi hj
    rw [hmat]
    exact entry_enum_map m
      (fun a b v => if a = b then 0
        else normalizeP5P95 v
          (p5o.getD (calculatePercentile (extractMatrixValues m) 5))
          (p95o.getD (calculatePercentile (extractMatrixValues m) 95)))
      hi (by rw [hrowlen i hi]; exact hj)
  have hoob : ∀ i j, m.length ≤ i ∨ (m.getD i []).length ≤ j →
      entry (normalizeMatrixP5P95 m p5o p95o).normalizedMatrix i j = 0 := by
    intro i j hor
    rw [hmat]
    exact entry_enum_map_oob m
      (fun a b v => if a = b then 0
        else normalizeP5P95 v
          (p5o.getD (calculatePercentile (extractMatrixValues m) 5))
          (p95o.getD (calculatePercentile (extractMatrixValues m) 95))) hor
  constructor
  · intro i j
    by_cases hi : i < m.length <;> by_cases hj : j < m.length
    · rw [hentry i j hi hj, hentry j i hj hi]
      by_cases hij : i = j
      · rw [hij]
      · rw [if_neg hij, if_neg (fun hc => hij hc.symm), hsym i j]
    · rw [hoob i j (Or.inr (by rw [hrowlen i hi]; omega)),
        hoob j i (Or.inl (by omega))]
    · rw [hoob i j (Or.inl (by omega)),
        hoob j i (Or.inr (by rw [hrowlen j hj]; omega))]
    · rw [hoob i j (Or.inl (by omega)), hoob j i (Or.inl (by omega))]
  · intro i
    by_cases hi : i < m.length
    · rw [hentry i i hi hi, if_pos rfl]
    · rw [hoob i i (Or.inl (by omega))]

theorem coOrderMatrix_invariants (orders : List Order) (categories : List Category) :
    SymmEntry (calculateCoOrderMatrix orders categories).matrix ∧
    ZeroDiag (calculateCoOrderMatrix orders categories).matrix := by
  have hinj : ∀ a b k,
      mapGet (buildIndexList (categories.map (·.id))) a = some k →
      mapGet (buildIndexList (categories.map (·.id))) b = some k → a = b :=
    fun _ _ _ ha hb => buildIndexList_inj ha hb
  have hfold := coOrderFold_preserves (buildIndexList (categories.map (·.id))) hinj
    orders ((fun _ _ => (0 : ℚ)),
      (categories.map (·.id)).foldl (fun c cat => mapSet c cat 0) [])
    (fun _ _ => rfl) (fun _ => rfl)
  unfold calculateCoOrderMatrix
  dsimp only
  exact ⟨rangeMatrix_symmEntry _ _ hfold.1, rangeMatrix_zeroDiag _ _ hfold.2⟩

theorem liftMatrix_invariants (co : CoOrderMatrix) :
    SymmEntry (calculateLiftMatrix co).matrix ∧
    ZeroDiag (calculateLiftMatrix co).matrix := by
  unfold calculateLiftMatrix
  dsimp only
  constructor
  · apply rangeMatrix_symmEntry
    intro a b
    rcases lt_trichotomy a b with h | h | h
    · rw [if_neg (ne_of_lt h), if_pos h, if_neg (Ne.symm (ne_of_lt h)),
        if_neg (not_lt.mpr (le_of_lt h))]
    · rw [h]
    · rw [if_neg (Ne.symm (ne_of_lt h)), if_neg (not_lt.mpr (le_of_lt h)),
        if_neg (ne_of_lt h), if_pos h]
  · apply rangeMatrix_zeroDiag
    intro a
    rw [if_pos rfl]

theorem coAffinityMatrix_invariants (nl nco : NormalizedMatrix)
    (hl : SymmEntry nl.matrix) (hc : SymmEntry nco.matrix) :
    SymmEntry (calculateCoAffinityMatrix nl nco).matrix ∧
    ZeroDiag (calculateCoAffinityMatrix nl nco).matrix := by
  unfold calculateCoAffinityMatrix
  dsimp only
  constructor
  · apply rangeMatrix_symmEntry
    intro a b
    by_cases hab : a = b
    · rw [hab]
    · rw [if_neg hab, if_neg (fun h => hab h.symm), hl a b, hc a b]
  · apply rangeMatrix_zeroDiag
    intro a
    rw [if_pos rfl]

/-- C9: every matrix in the pipeline — the co-orders matrix, the lift matrix,
both normalized matrices (with the pipeline's shared bounds), and the final
CoAffinity matrix — is symmetric with a zero diagonal, entrywise. -/
theorem c9_pipeline_invariants (orders : List Order) (categories : List Category) :
    (SymmEntry (buildCoAffinityFromOrders orders categories).1.matrix ∧
      ZeroDiag (buildCoAffinityFromOrders orders categories).1.matrix) ∧
    (SymmEntry (buildCoAffinityFromOrders orders categories).2.1.matrix ∧
      ZeroDiag (buildCoAffinityFromOrders orders categories).2.1.matrix) ∧
    (SymmEntry (buildCoAffinityFromOrders orders categories).2.2.1.matrix ∧
      ZeroDiag (buildCoAffinityFromOrders orders categories).2.2.1.matrix) ∧
    (SymmEntry (buildCoAffinityFromOrders orders categories).2.2.2.1.matrix ∧
      ZeroDiag (buildCoAffinityFromOrders orders categories).2.2.2.1.matrix) ∧
    (SymmEntry (buildCoAffinityFromOrders orders categories).2.2.2.2.matrix ∧
      ZeroDiag (buildCoAffinityFromOrders orders categories).2.2.2.2.matrix) := by
  have hco : (buildCoAffinityFromOrders orders categories).1 =
      calculateCoOrderMatrix orders categories := rfl
  have hlift : (buildCoAffinityFromOrders orders categories).2.1 =
      calculateLiftMatrix (calculateCoOrderMatrix orders categories) := rfl
  have hnl : (buildCoAffinityFromOrders orders categories).2.2.1 =
      normalizeLiftMatrix (calculateLiftMatrix (calculateCoOrderMatrix orders categories))
        (some (getLiftBounds (calculateLiftMatrix (calculateCoOrderMatrix orders categories))).1)
        (some (getLiftBounds (calculateLiftMatrix (calculateCoOrderMatrix orders categories))).2) := rfl
  have hnco : (buildCoAffinityFromOrders orders categories).2.2.2.1 =
      normalizeCoOrdersMatrix (calculateCoOrderMatrix orders categories)
        (some (getCoOrdersBounds (calculateCoOrderMatrix orders categories)).1)
        (some (getCoOrdersBounds (calculateCoOrderMatrix orders categories)).2) := rfl
  have hca : (buildCoAffinityFromOrders orders categories).2.2.2.2 =
      calculateCoAffinityMatrix (buildCoAffinityFromOrders orders categories).2.2.1
        (buildCoAffinityFromOrders orders categories).2.2.2.1 := rfl
  have h1 := coOrderMatrix_invariants orders categories
  have h2 := liftMatrix_invariants (calculateCoOrderMatrix orders categories)
  have hcosq : ∀ row ∈ (calculateCoOrderMatrix orders categories).matrix,
      row.length = (calculateCoOrderMatrix orders categories).matrix.length := by
    have hsq := rangeMatrix_square (categories.map (·.id)).length
      (fun i j => ((orders.foldl
        (fun st order =>
          (applyOrderPairs (buildIndexList (categories.map (·.id)))
            (jsSetList (order.items.map (·.categoryId))) st.1,
           applyOrderCounts (jsSetList (order.items.map (·.categoryId))) st.2))
        ((fun _ _ => (0 : ℚ)),
          (categories.map (·.id)).foldl (fun c cat => mapSet c cat 0) [])).1 i j))
    intro row hrow
    have ha : row.length = (categories.map (·.id)).length := hsq.2 row hrow
    have hb : (calculateCoOrderMatrix orders categories).matrix.length =
        (categories.map (·.id)).length := hsq.1
    exact ha.trans hb.symm
  have hliftsq : ∀ row ∈ (calculateLiftMatrix (calculateCoOrderMatrix orders categories)).matrix,
      row.length = (calculateLiftMatrix (calculateCoOrderMatrix orders categories)).matrix.length := by
    have hsq := rangeMatrix_square (calculateCoOrderMatrix orders categories).category.length
      (fun i j => if i = j then 0
        else if i < j then liftPairValue (calculateCoOrderMatrix orders categories) i j
        else liftPairValue (calculateCoOrderMatrix orders categories) j i)
    intro row hrow
    have ha : row.length = (calculateCoOrderMatrix orders categories).category.length :=
      hsq.2 row hrow
    have hb : (calculateLiftMatrix (calculateCoOrderMatrix orders categories)).matrix.length =
        (calculateCoOrderMatrix orders categories).category.length := hsq.1
    exact ha.trans hb.symm
  have h3 := normalizeMatrix_preserves
    (calculateLiftMatrix (calculateCoOrderMatrix orders categories)).matrix
    (some (getLiftBounds (calculateLiftMatrix (calculateCoOrderMatrix orders categories))).1)
    (some (getLiftBounds (calculateLiftMatrix (calculateCoOrderMatrix orders categories))).2)
    hliftsq h2.1
  have h4 := normalizeMatrix_preserves
    (calculateCoOrderMatrix orders categories).matrix
    (some (getCoOrdersBounds (calculateCoOrderMatrix orders categories)).1)
    (some (getCoOrdersBounds (calculateCoOrderMatrix orders categories)).2)
    hcosq h1.1
  have hnlmat : (buildCoAffinityFromOrders orders categories).2.2.1.matrix =
      (normalizeMatrixP5P95
        (calculateLiftMatrix (calculateCoOrderMatrix orders categories)).matrix
        (some (getLiftBounds (calculateLiftMatrix (calculateCoOrderMatrix orders categories))).1)
        (some (getLiftBounds (calculateLiftMatrix (calculateCoOrderMatrix orders categories))).2)).normalizedMatrix := rfl
  have hncomat : (buildCoAffinityFromOrders orders categories).2.2.2.1.matrix =
      (normalizeMatrixP5P95 (calculateCoOrderMatrix orders categories).matrix
        (some (getCoOrdersBounds (calculateCoOrderMatrix orders categories)).1)
        (some (getCoOrdersBounds (calculateCoOrderMatrix orders categories)).2)).normalizedMatrix := rfl
  have h5 := coAffinityMatrix_invariants
    (buildCoAffinityFromOrders orders categories).2.2.1
    (buildCoAffinityFromOrders orders categories).2.2.2.1
    (by rw [hnlmat]; exact h3.1) (by rw [hncomat]; exact h4.1)
  refine ⟨⟨?_, ?_⟩, ⟨?_, ?_⟩, ⟨?_, ?_⟩, ⟨?_, ?_⟩, ⟨?_, ?_⟩⟩
  · rw [hco]; exact h1.1
  · rw [hco]; exact h1.2
  · rw [hlift]; exact h2.1
  · rw [hlift]; exact h2.2
  · rw [hnlmat]; exact h3.1
  · rw [hnlmat]; exact h3.2
  · rw [hncomat]; exact h4.1
  · rw [hncomat]; exact h4.2
  · rw [hca]; exact h5.1
  · rw [hca]; exact h5.2

end GoalAffinity
